import Mathlib

/-!
# Verification of the OCR-result-to-document assembly pipeline

Shallow embedding of `src/main.ts` (an Obsidian plugin that converts a PDF's
OCR result into a Markdown document plus extracted image files).

Modelling conventions:
* JavaScript strings are embedded as `Str := List Char`.
* Byte buffers (`Buffer`) are embedded as `List Nat` (each element < 256 by
  construction of the base64 decoder).
* The host vault is a pair of association lists: `index` models the host's
  indexed view (`vault.getAbstractFileByPath`) and `disk` models direct
  storage (`vault.adapter`).  The two can disagree (a stale index), which is
  exactly the situation the source's dual existence check is written for.
* Fallible external calls are embedded as `Except Str` values; the network
  phase (upload / getSignedUrl / ocr.process, which the pipeline only ever
  observes as "produced an OCR result or threw") is collapsed into one
  abstract outcome `Env.ocrOutcome`, and a possible low-level failure of
  `adapter.writeBinary` is modelled by the oracle `Env.writeFails`.
* JavaScript regular-expression operations are embedded by direct recursive
  matchers that implement the exact backtracking behaviour of the concrete
  patterns appearing in the source (documented at each definition).
  Replacement strings are inserted literally; the `$`-substitution patterns
  of `String.prototype.replace` are not modelled (the replacement strings
  produced by the source contain `$` only if user configuration does, and no
  verified property depends on that corner).
-/

/-- JavaScript strings. -/
abbrev Str := List Char

/-- The character class matched by JavaScript `\s` (also the set removed by
`String.prototype.trim`): ASCII whitespace, NBSP, the Unicode space
separators, line/paragraph separators and the BOM. -/
def isJsSpace (c : Char) : Bool :=
  let n := c.toNat
  n == 9 || n == 10 || n == 11 || n == 12 || n == 13 || n == 32 ||
  n == 0xA0 || n == 0x1680 || (0x2000 ≤ n && n ≤ 0x200A) ||
  n == 0x2028 || n == 0x2029 || n == 0x202F || n == 0x205F || n == 0x3000 ||
  n == 0xFEFF

/-- `String.prototype.trim`: drop `\s` characters from both ends. -/
def trimWs (l : Str) : Str :=
  ((l.dropWhile isJsSpace).reverse.dropWhile isJsSpace).reverse

/-- ASCII lower-casing, as used by `toLowerCase()` on the ASCII strings the
source compares against (mime types, error messages). -/
def toLowerA (c : Char) : Char :=
  if 'A' ≤ c ∧ c ≤ 'Z' then Char.ofNat (c.toNat + 32) else c

/-- First-match association-list lookup (a `Record<string, string>` read). -/
def alookup {α : Type} : List (Str × α) → Str → Option α
  | [], _ => none
  | (k, v) :: rest, key => if k = key then some v else alookup rest key

/-- Substring test, as used by `String.prototype.includes`. -/
def containsSub (needle : Str) : Str → Bool
  | [] => needle.isPrefixOf []
  | c :: cs => needle.isPrefixOf (c :: cs) || containsSub needle cs

/-- Suffix test, as used by `String.prototype.endsWith`. -/
def endsWithStr (l suffix : Str) : Bool :=
  suffix.reverse.isPrefixOf l.reverse

/-- `IMAGE_MIME_TO_EXT` (src/main.ts lines 9-18). -/
def IMAGE_MIME_TO_EXT : List (Str × Str) :=
  [("image/jpeg".data, "jpg".data),
   ("image/jpg".data, "jpg".data),
   ("image/png".data, "png".data),
   ("image/webp".data, "webp".data),
   ("image/tiff".data, "tiff".data),
   ("image/gif".data, "gif".data),
   ("image/bmp".data, "bmp".data),
   ("image/svg+xml".data, "svg".data)]

/-- `IMAGE_EXT_ALIASES` (src/main.ts lines 20-30). -/
def IMAGE_EXT_ALIASES : List (Str × Str) :=
  [("jpg".data, "jpg".data),
   ("jpeg".data, "jpg".data),
   ("png".data, "png".data),
   ("webp".data, "webp".data),
   ("tiff".data, "tiff".data),
   ("tif".data, "tiff".data),
   ("gif".data, "gif".data),
   ("bmp".data, "bmp".data),
   ("svg".data, "svg".data)]

/-- `normalizeVaultPath` (src/main.ts lines 32-34): trim, turn backslashes
into slashes, strip leading and trailing slash runs. -/
def normalizeVaultPath (input : Str) : Str :=
  let t := (trimWs input).map (fun c => if c = '\\' then '/' else c)
  ((t.dropWhile (· = '/')).reverse.dropWhile (· = '/')).reverse

/-- Base64 value of one alphabet character (`A-Za-z0-9+/`). -/
def b64Val (c : Char) : Option Nat :=
  if 'A' ≤ c ∧ c ≤ 'Z' then some (c.toNat - 65)
  else if 'a' ≤ c ∧ c ≤ 'z' then some (c.toNat - 97 + 26)
  else if '0' ≤ c ∧ c ≤ '9' then some (c.toNat - 48 + 52)
  else if c = '+' then some 62
  else if c = '/' then some 63
  else none

/-- Pack 6-bit quanta into bytes (4 quanta → 3 bytes; a trailing group of
3 quanta → 2 bytes, of 2 quanta → 1 byte, of 1 quantum → nothing). -/
def b64Bytes : List Nat → List Nat
  | a :: b :: c :: d :: rest =>
      (a * 4 + b / 16) :: ((b % 16) * 16 + c / 4) :: ((c % 4) * 64 + d) :: b64Bytes rest
  | [a, b, c] => [a * 4 + b / 16, (b % 16) * 16 + c / 4]
  | [a, b] => [a * 4 + b / 16]
  | _ => []

/-- `Buffer.from(s, 'base64')`: decoding stops at the first `=` padding
character; characters outside the base64 alphabet are ignored. -/
def base64Decode (l : Str) : List Nat :=
  b64Bytes ((l.takeWhile (· ≠ '=')).filterMap b64Val)

/-- The successful result of `parseDataUrl`. -/
structure ParsedDataUrl where
  mime : Str
  buffer : List Nat
deriving DecidableEq

/-- `parseDataUrl` (src/main.ts lines 36-42).  The regular expression
`^data:([^;]+);base64,([\s\S]+)$` is deterministic: group 1 is the maximal
run of non-`;` characters after `data:` (it must be non-empty and be
followed by the literal `;base64,`), group 2 is the non-empty remainder.
The base64 body has its `\s` runs removed before decoding, and an empty
decoded buffer yields `null`. -/
def parseDataUrl (dataUrl : Str) : Option ParsedDataUrl :=
  if "data:".data.isPrefixOf dataUrl then
    let rest := dataUrl.drop 5
    let mime := rest.takeWhile (· ≠ ';')
    let afterMime := rest.drop mime.length
    if mime ≠ [] ∧ ";base64,".data.isPrefixOf afterMime then
      let body := afterMime.drop 8
      if body ≠ [] then
        let buffer := base64Decode (body.filter (fun c => ¬ isJsSpace c))
        if buffer = [] then none else some ⟨mime.map toLowerA, buffer⟩
      else none
    else none
  else none

/-- `extensionFromMime` (src/main.ts lines 44-47): `undefined` and the empty
string are both falsy, otherwise look the lower-cased mime up in the table. -/
def extensionFromMime (mime : Option Str) : Option Str :=
  match mime with
  | none => none
  | some m => if m = [] then none else alookup IMAGE_MIME_TO_EXT (m.map toLowerA)

/-- ASCII letters and digits, the class `[a-z0-9]` under the `i` flag. -/
def isAsciiAlnum (c : Char) : Bool :=
  ('a' ≤ c && c ≤ 'z') || ('A' ≤ c && c ≤ 'Z') || ('0' ≤ c && c ≤ '9')

/-- `extensionFromImageId` (src/main.ts lines 49-53).  The pattern
`\.([a-z0-9]+)$/i` matches exactly when the maximal alphanumeric suffix is
non-empty and is preceded by a dot; the captured suffix is lower-cased and
normalised through the alias table. -/
def extensionFromImageId (imageId : Str) : Option Str :=
  let rev := imageId.reverse
  let run := rev.takeWhile isAsciiAlnum
  if run = [] then none
  else
    match rev.drop run.length with
    | d :: _ => if d = '.' then alookup IMAGE_EXT_ALIASES (run.reverse.map toLowerA) else none
    | _ => none

/-- `detectImageExtensionFromBuffer` (src/main.ts lines 370-386): buffers
shorter than 12 bytes are rejected, then the magic numbers of
jpg/png/gif/bmp/tiff/webp are probed in the source's order. -/
def detectImageExtensionFromBuffer (buffer : List Nat) : Option Str :=
  match buffer with
  | b0 :: b1 :: b2 :: b3 :: _ :: _ :: _ :: _ :: b8 :: b9 :: b10 :: b11 :: _ =>
    if b0 = 0xFF ∧ b1 = 0xD8 ∧ b2 = 0xFF then some "jpg".data
    else if b0 = 0x89 ∧ b1 = 0x50 ∧ b2 = 0x4E ∧ b3 = 0x47 then some "png".data
    else if b0 = 0x47 ∧ b1 = 0x49 ∧ b2 = 0x46 then some "gif".data
    else if b0 = 0x42 ∧ b1 = 0x4D then some "bmp".data
    else if b0 = 0x49 ∧ b1 = 0x49 ∧ b2 = 0x2A then some "tiff".data
    else if b0 = 0x4D ∧ b1 = 0x4D ∧ b2 = 0x00 ∧ b3 = 0x2A then some "tiff".data
    else if b0 = 0x52 ∧ b1 = 0x49 ∧ b2 = 0x46 ∧ b3 = 0x46 ∧
            b8 = 0x57 ∧ b9 = 0x45 ∧ b10 = 0x42 ∧ b11 = 0x50 then some "webp".data
    else none
  | _ => none

/-- The pair produced by `resolveOcrImageData`. -/
structure ResolvedImage where
  buffer : List Nat
  extension : Str
deriving DecidableEq

/-- `resolveOcrImageData` (src/main.ts lines 342-352): trim the payload, try
it as a data URL, otherwise base64-decode the whitespace-stripped payload
directly; reject empty buffers; choose the extension by mime table, then
identifier suffix, then magic numbers, then `bin`. -/
def resolveOcrImageData (imageId : Str) (base64 : Str) : Option ResolvedImage :=
  let trimmedBase64 := trimWs base64
  let parsed := parseDataUrl trimmedBase64
  let buffer :=
    match parsed with
    | some pr => pr.buffer
    | none => base64Decode (trimmedBase64.filter (fun c => ¬ isJsSpace c))
  if buffer = [] then none
  else
    let extension :=
      match extensionFromMime (parsed.map ParsedDataUrl.mime) with
      | some e => e
      | none =>
        match extensionFromImageId imageId with
        | some e => e
        | none =>
          match detectImageExtensionFromBuffer buffer with
          | some e => e
          | none => "bin".data
    some ⟨buffer, extension⟩

/-- The character class `[<>:"/\\|?*\u0000-\u001F]` that `sanitizeFileName`
replaces with `_`. -/
def isSanBad (c : Char) : Bool :=
  c == '<' || c == '>' || c == ':' || c == '"' || c == '/' || c == '\\' ||
  c == '|' || c == '?' || c == '*' || decide (c.toNat ≤ 0x1F)

/-- One character of `sanitizeFileName`'s first replacement. -/
def sanChar (c : Char) : Char := if isSanBad c then '_' else c

/-- The replacement `\s+` → `' '`: each maximal run of `\s` characters
collapses to a single ASCII space (a whitespace character is dropped when
followed by more whitespace, and becomes one space when the run ends). -/
def collapseWs : Str → Str
  | [] => []
  | [c] => if isJsSpace c then [' '] else [c]
  | c :: c2 :: cs =>
    if isJsSpace c then
      (if isJsSpace c2 then collapseWs (c2 :: cs) else ' ' :: collapseWs (c2 :: cs))
    else c :: collapseWs (c2 :: cs)

/-- The replacement `[. ]+$` → `''`: strip trailing dots and spaces. -/
def stripTrailingDotSpace (l : Str) : Str :=
  (l.reverse.dropWhile (fun c => c = '.' || c = ' ')).reverse

/-- `sanitizeFileName` (src/main.ts lines 354-361): replace reserved and
control characters with `_`, collapse whitespace runs to one space, trim,
strip trailing dots/spaces. -/
def sanitizeFileName (input : Str) : Str :=
  stripTrailingDotSpace (trimWs (collapseWs (input.map sanChar)))

/-- The replacement `\.[^/.]+$` → `''` applied to the sanitized identifier
(src/main.ts line 290): the pattern matches exactly when the maximal
trailing run of non-`/`, non-`.` characters is non-empty and preceded by a
dot, and removes that dot and the run. -/
def stripTrailingExt (l : Str) : Str :=
  if l.reverse.takeWhile (fun c => c ≠ '/' && c ≠ '.') = [] then l
  else
    match l.reverse.drop (l.reverse.takeWhile (fun c => c ≠ '/' && c ≠ '.')).length with
    | d :: _ =>
      if d = '.' then
        (l.reverse.drop ((l.reverse.takeWhile (fun c => c ≠ '/' && c ≠ '.')).length + 1)).reverse
      else l
    | _ => l

/-- The characters not matched by `.` in a JavaScript regex without the `s`
flag: line feed, carriage return, line separator, paragraph separator. -/
def isJsNewline (c : Char) : Bool :=
  c.toNat == 10 || c.toNat == 13 || c.toNat == 0x2028 || c.toNat == 0x2029

/-- Tail of the marker pattern, `(?:.*?)\)`: lazily scan (no newlines) for
the next `)`; return the remainder after it. -/
def findCloseParen : Str → Option Str
  | [] => none
  | c :: cs => if c = ')' then some cs else if isJsNewline c then none else findCloseParen cs

/-- Middle of the marker pattern, `(?:.*?)ID(?:.*?)\)` with the identifier
matched literally (the source escapes every regex metacharacter in it):
lazily scan (no newlines) for an occurrence of the identifier that is
followed by a reachable `)`; backtracks past identifier occurrences whose
tail has no closing parenthesis, exactly like the engine. -/
def findIdThenClose (id : Str) : Str → Option Str
  | [] => none
  | c :: cs =>
    match (if id.isPrefixOf (c :: cs) then findCloseParen ((c :: cs).drop id.length) else none) with
    | some rest => some rest
    | none => if isJsNewline c then none else findIdThenClose id cs

/-- After the literal `![` of the marker pattern: a maximal run of
non-`]` characters (the class `[^\]]*` is greedy and is followed by the
literal `](`, so no backtracking arises), then `findIdThenClose`. -/
def matchMarkerTail (id : Str) (rest : Str) : Option Str :=
  match rest.dropWhile (· ≠ ']') with
  | d :: e :: rest2 => if d = ']' ∧ e = '(' then findIdThenClose id rest2 else none
  | _ => none

/-- Try to match `\!\[[^\]]*\]\((?:.*?)ID(?:.*?)\)` at the head of the
string.  Returns the remainder after the match. -/
def matchMarkerAt (id : Str) : Str → Option Str
  | b :: c :: rest => if b = '!' ∧ c = '[' then matchMarkerTail id rest else none
  | _ => none

theorem dropWhile_length_le (p : Char → Bool) (l : Str) :
    (l.dropWhile p).length ≤ l.length := by
  have h : List.Sublist (l.dropWhile p) l := List.dropWhile_sublist p
  exact h.length_le

theorem findCloseParen_length {l rest : Str} (h : findCloseParen l = some rest) :
    rest.length < l.length := by
  induction l with
  | nil => simp [findCloseParen] at h
  | cons c cs ih =>
    by_cases hc : c = ')'
    · simp [findCloseParen, hc] at h
      simp [← h]
    · by_cases hn : isJsNewline c = true
      · simp [findCloseParen, hc, hn] at h
      · simp [findCloseParen, hc, hn] at h
        exact Nat.lt_succ_of_lt (ih h)

theorem findIdThenClose_length {id l rest : Str} (h : findIdThenClose id l = some rest) :
    rest.length < l.length := by
  induction l with
  | nil => simp [findIdThenClose] at h
  | cons c cs ih =>
    rw [findIdThenClose] at h
    rcases hm : (if id.isPrefixOf (c :: cs) then findCloseParen ((c :: cs).drop id.length) else none)
        with - | r
    · rw [hm] at h
      by_cases hn : isJsNewline c = true
      · simp [hn] at h
      · simp [hn] at h
        exact Nat.lt_succ_of_lt (ih h)
    · rw [hm] at h
      simp at h
      subst h
      by_cases hp : id.isPrefixOf (c :: cs)
      · rw [if_pos hp] at hm
        have h1 := findCloseParen_length hm
        have h2 : ((c :: cs).drop id.length).length ≤ (c :: cs).length := by
          simp
        omega
      · simp [hp] at hm

theorem matchMarkerTail_length {id rest r : Str} (h : matchMarkerTail id rest = some r) :
    r.length < rest.length := by
  unfold matchMarkerTail at h
  have hle := dropWhile_length_le (· ≠ ']') rest
  rcases heq : List.dropWhile (· ≠ ']') rest with - | ⟨d, ds⟩
  · rw [heq] at h; simp at h
  · rw [heq] at h
    rcases ds with - | ⟨e, es⟩
    · simp at h
    · rw [heq] at hle
      simp at hle
      replace h : (if d = ']' ∧ e = '(' then findIdThenClose id es else none) = some r := h
      by_cases hde : d = ']' ∧ e = '('
      · rw [if_pos hde] at h
        have := findIdThenClose_length h
        omega
      · rw [if_neg hde] at h
        simp at h

theorem matchMarkerAt_length {id l r : Str} (h : matchMarkerAt id l = some r) :
    r.length < l.length := by
  match l with
  | [] => simp [matchMarkerAt] at h
  | [c] => simp [matchMarkerAt] at h
  | b :: c :: rest =>
    rw [matchMarkerAt] at h
    by_cases hbc : b = '!' ∧ c = '['
    · rw [if_pos hbc] at h
      have := matchMarkerTail_length h
      simp
      omega
    · rw [if_neg hbc] at h
      simp at h

/-- `markdown.replace(regex, replacement)` with the global marker regex:
scan left to right; at each position either replace a match (continuing
after it, the replacement itself is not rescanned) or copy one character.
The replacement string is inserted literally. -/
def replaceMarkers (id repl : Str) : Str → Str
  | [] => []
  | c :: cs =>
    match h : matchMarkerAt id (c :: cs) with
    | some rest => repl ++ replaceMarkers id repl rest
    | none => c :: replaceMarkers id repl cs
termination_by l => l.length
decreasing_by
  · exact matchMarkerAt_length h
  · simp

/-- `removeImageReference` (src/main.ts lines 363-368): an empty identifier
leaves the text untouched, otherwise every marker whose link target contains
the identifier is deleted. -/
def removeImageReference (markdown : Str) (imageId : Str) : Str :=
  if imageId = [] then markdown else replaceMarkers imageId [] markdown

/-- One element of `pages[].images[]` as the source reads it: `id` may be
absent, and the payload may arrive under either of two field spellings. -/
structure OcrImage where
  id : Option Str
  imageBase64 : Option Str
  image_base64 : Option Str
deriving DecidableEq

/-- One element of `pages[]`: a numeric `index` (absent if the provider
omitted it or it was not a number), the page markdown, and the images. -/
structure OcrPage where
  index : Option Int
  markdown : Option Str
  images : Option (List OcrImage)
deriving DecidableEq

/-- The OCR response as far as the pipeline reads it: `pages` is `none` when
the field is missing or not an array. -/
structure OcrResult where
  pages : Option (List OcrPage)
deriving DecidableEq

/-- The comparator `(a, b) => a.index - b.index` of src/main.ts line 262 as
a `≤` test.  When either index is missing the subtraction yields `NaN`,
which the engine's sort treats as 0 (elements compare equal and the stable
sort keeps their order); hence `true` in those cases. -/
def pageSortLE (a b : OcrPage) : Bool :=
  match a.index, b.index with
  | some i, some j => i ≤ j
  | _, _ => true

/-- Stable insertion of a page into an already-sorted list: the new element
comes from earlier in the original array than every element of `l`, and is
placed before the first element it compares `≤` to. -/
def orderedInsertPage (x : OcrPage) : List OcrPage → List OcrPage
  | [] => [x]
  | y :: ys => if pageSortLE x y then x :: y :: ys else y :: orderedInsertPage x ys

/-- `ocrResult.pages.sort((a, b) => a.index - b.index)` (src/main.ts line
262).  `Array.prototype.sort` is required to be stable, and for the
consistent comparator cases the stable ascending order is unique, so any
stable sorting algorithm embeds it; insertion sort is used here.  Note the
source sorts the `pages` array *in place*. -/
def sortPages : List OcrPage → List OcrPage
  | [] => []
  | x :: xs => orderedInsertPage x (sortPages xs)

/-- What the host's indexed view stores at a path. -/
inductive VEntry where
  | file : VEntry
  | folder : VEntry
deriving DecidableEq

/-- What direct storage holds at a path. -/
inductive DiskEntry where
  | text : Str → DiskEntry
  | binary : List Nat → DiskEntry
  | folder : DiskEntry
deriving DecidableEq

/-- The host vault: the indexed view (`getAbstractFileByPath`, instanceof
TFile/TFolder) and direct storage (`adapter.exists`, `adapter.writeBinary`).
The index is not updated by raw adapter writes (the host's file watcher does
that asynchronously), so the two views can disagree. -/
structure Vault where
  index : List (Str × VEntry)
  disk : List (Str × DiskEntry)
deriving DecidableEq

/-- `this.app.vault.getAbstractFileByPath(path)`. -/
def Vault.getAbstractFileByPath (v : Vault) (path : Str) : Option VEntry :=
  alookup v.index path

/-- `this.app.vault.adapter.exists(path)`. -/
def Vault.adapterExists (v : Vault) (path : Str) : Bool :=
  (alookup v.disk path).isSome

/-- Replace the first entry at the key, or append a fresh one. -/
def setEntry : List (Str × DiskEntry) → Str → DiskEntry → List (Str × DiskEntry)
  | [], p, e => [(p, e)]
  | (q, d) :: rest, p, e =>
    if q = p then (p, e) :: rest else (q, d) :: setEntry rest p e

/-- `adapter.writeBinary(path, buffer)`: unconditional overwrite of direct
storage; the index is untouched. -/
def Vault.writeBinary (v : Vault) (path : Str) (bytes : List Nat) : Vault :=
  { v with disk := setEntry v.disk path (.binary bytes) }

/-- `vault.createFolder(path)`: fails with an "already exists" error when
anything is already present at the path (in the index, or on disk — the
latter is how a folder created concurrently by another worker appears),
otherwise records the folder in both views. -/
def Vault.createFolder (v : Vault) (path : Str) : Except Str Unit × Vault :=
  if (alookup v.index path).isSome || (alookup v.disk path).isSome then
    (.error "Folder already exists.".data, v)
  else
    (.ok (), ⟨(path, .folder) :: v.index, (path, .folder) :: v.disk⟩)

/-- `vault.create(path, text)`: the no-clobber document creation; fails with
an "already exists" error when anything is present at the path. -/
def Vault.create (v : Vault) (path : Str) (content : Str) : Except Str Unit × Vault :=
  if (alookup v.index path).isSome || (alookup v.disk path).isSome then
    (.error "File already exists.".data, v)
  else
    (.ok (), ⟨(path, .file) :: v.index, (path, .text content) :: v.disk⟩)

/-- `isAlreadyExistsError` (src/main.ts lines 388-391). -/
def isAlreadyExistsError (message : Str) : Bool :=
  containsSub "already exists".data (message.map toLowerA) ||
  containsSub "EEXIST".data message

/-- The environment of external effects: whether a raw `adapter.writeBinary`
call throws for a given path, and the outcome of the network phase
(upload / getSignedUrl / ocr.process), which the pipeline observes only as
"an OCR result" or "a thrown error". -/
structure Env where
  writeFails : Str → Bool
  ocrOutcome : Except Str OcrResult

/-- `saveImageBuffer` (src/main.ts lines 338-340): a raw adapter write that
may fail at the storage layer; note the caller does not catch this. -/
def saveImageBuffer (env : Env) (v : Vault) (buffer : List Nat) (filePath : Str) :
    Except Str Unit × Vault :=
  if env.writeFails filePath then (.error "writeBinary failed".data, v)
  else (.ok (), v.writeBinary filePath buffer)

/-- The fallback identifier `img-<pageNumber>-<imageIndex>` synthesised for
blank image ids (src/main.ts line 270). -/
def digitChar (d : Nat) : Char := Char.ofNat (48 + d)

/-- Decimal digits of a natural number (fuel-structured so that it reduces
inside the kernel; the fuel `n + 1` always suffices since `n / 10 < n`). -/
def natToCharsC : Nat → Nat → Str
  | 0, _ => []
  | fuel + 1, n =>
    if n < 10 then [digitChar n] else natToCharsC fuel (n / 10) ++ [digitChar (n % 10)]

/-- Decimal digits of a natural number, as produced by JavaScript number
formatting for non-negative integers. -/
def natToChars (n : Nat) : Str := natToCharsC (n + 1) n

/-- JavaScript string interpolation of an integer-valued number. -/
def intToChars (i : Int) : Str :=
  if i < 0 then '-' :: natToChars i.natAbs else natToChars i.toNat

/-- `img-${pageNumber}-${imageIndex}` (src/main.ts line 270). -/
def fallbackId (pageNumber : Int) (imageIndex : Nat) : Str :=
  "img-".data ++ intToChars pageNumber ++ '-' :: natToChars imageIndex

/-- `typeof imgObj.id === 'string' && imgObj.id.trim()` — the truthiness
test guarding both the identifier choice and the marker rewrite. -/
def idNonBlank (img : OcrImage) : Bool :=
  match img.id with
  | some s => trimWs s ≠ []
  | none => false

/-- `rawId` (src/main.ts lines 268-270). -/
def rawIdOf (img : OcrImage) (pageNumber : Int) (imageIndex : Nat) : Str :=
  match img.id with
  | some s => if trimWs s ≠ [] then trimWs s else fallbackId pageNumber imageIndex
  | none => fallbackId pageNumber imageIndex

/-- `rawBase64` (src/main.ts lines 271-273): first string-typed field of the
two accepted spellings, else the empty string. -/
def rawB64Of (img : OcrImage) : Str :=
  match img.imageBase64 with
  | some s => s
  | none =>
    match img.image_base64 with
    | some s => s
    | none => []

/-- `![[${imageFilePath.replace(/\\/g, '/')}]]` (src/main.ts line 299). -/
def obsidianLink (imageFilePath : Str) : Str :=
  "![[".data ++ imageFilePath.map (fun c => if c = '\\' then '/' else c) ++ "]]".data

/-- The text-and-write-request part of one iteration of the image loop
(src/main.ts lines 267-301): returns the updated page markdown and, when
the image resolves, the file path and bytes to persist.  The write itself
(line 294) happens between the resolution and the rewrite; it is performed
by `imageStep` below, and on its failure the rewritten text is never
observed because the exception aborts the whole page loop. -/
def imageTextStep (pdfBaseName finalImagesPath : Str) (pageNumber : Int) (imageIndex : Nat)
    (md : Str) (img : OcrImage) : Str × Option (Str × List Nat) :=
  let rawId := rawIdOf img pageNumber imageIndex
  let rawBase64 := rawB64Of img
  if rawBase64 = [] then (removeImageReference md rawId, none)
  else if endsWithStr (trimWs rawBase64) "...".data then (removeImageReference md rawId, none)
  else
    match resolveOcrImageData rawId rawBase64 with
    | none => (removeImageReference md rawId, none)
    | some imageData =>
      let trimmedId := stripTrailingExt (sanitizeFileName rawId)
      let baseName := if trimmedId ≠ [] then trimmedId else fallbackId pageNumber imageIndex
      let imageFileName := sanitizeFileName pdfBaseName ++ '_' :: baseName ++ '.' :: imageData.extension
      let imageFilePath := finalImagesPath ++ '/' :: imageFileName
      let md' := if idNonBlank img then replaceMarkers rawId (obsidianLink imageFilePath) md else md
      (md', some (imageFilePath, imageData.buffer))

/-- One iteration of the image loop including the `saveImageBuffer` effect:
resolution failures degrade to marker removal and continue; a storage
failure of the write throws (the `.error` propagates, vault unchanged for
that write). -/
def imageStep (env : Env) (pdfBaseName finalImagesPath : Str) (pageNumber : Int)
    (imageIndex : Nat) (md : Str) (v : Vault) (img : OcrImage) : Except Str Str × Vault :=
  match imageTextStep pdfBaseName finalImagesPath pageNumber imageIndex md img with
  | (md', none) => (.ok md', v)
  | (md', some (path, buffer)) =>
    match saveImageBuffer env v buffer path with
    | (.ok (), v') => (.ok md', v')
    | (.error e, v') => (.error e, v')

/-- The image loop of `combineMarkdownWithImages` over one page's images
(`for (const [imageIndex, imgObj] of (page.images || []).entries())`). -/
def processImages (env : Env) (pdfBaseName finalImagesPath : Str) (pageNumber : Int)
    (imageIndex : Nat) (md : Str) (v : Vault) : List OcrImage → Except Str Str × Vault
  | [] => (.ok md, v)
  | img :: rest =>
    match imageStep env pdfBaseName finalImagesPath pageNumber imageIndex md v img with
    | (.ok md', v') => processImages env pdfBaseName finalImagesPath pageNumber (imageIndex + 1) md' v' rest
    | (.error e, v') => (.error e, v')

/-- The page loop of `combineMarkdownWithImages`
(`for (const [pageIndex, page] of sortedPages.entries())`), appending each
page's processed markdown plus a blank-line separator. -/
def processPages (env : Env) (pdfBaseName finalImagesPath : Str) (acc : Str) (v : Vault)
    (pageIndex : Nat) : List OcrPage → Except Str Str × Vault
  | [] => (.ok acc, v)
  | page :: rest =>
    let pageNumber : Int :=
      match page.index with
      | some n => n
      | none => Int.ofNat pageIndex
    let md0 := page.markdown.getD []
    match processImages env pdfBaseName finalImagesPath pageNumber 0 md0 v (page.images.getD []) with
    | (.ok md, v') =>
      processPages env pdfBaseName finalImagesPath (acc ++ md ++ "\n\n".data) v' (pageIndex + 1) rest
    | (.error e, v') => (.error e, v')

/-- `combineMarkdownWithImages` (src/main.ts lines 254-306).  The third
component of the result is the final state of the caller's `ocrResult`
object: `ocrResult.pages.sort(...)` sorts the pages array *in place*, so a
successful (or page-loop-failing) run leaves the input's pages permuted into
sorted order; the no-pages error is thrown before the sort. -/
def combineMarkdownWithImages (env : Env) (ocrResult : OcrResult)
    (pdfBaseName finalImagesPath : Str) (v : Vault) :
    Except Str Str × Vault × OcrResult :=
  match ocrResult.pages with
  | none => (.error "OCR result does not contain pages.".data, v, ocrResult)
  | some ps =>
    if ps = [] then (.error "OCR result does not contain pages.".data, v, ocrResult)
    else
      let sortedPages := sortPages ps
      match processPages env pdfBaseName finalImagesPath [] v 0 sortedPages with
      | (.ok md, v') => (.ok md, v', ⟨some sortedPages⟩)
      | (.error e, v') => (.error e, v', ⟨some sortedPages⟩)

/-- Split a path on `/` (JavaScript `split('/')` keeps empty fragments; the
source filters them out with `.filter(Boolean)` afterwards). -/
def splitSlash : Str → List Str
  | [] => [[]]
  | c :: cs =>
    if c = '/' then [] :: splitSlash cs
    else
      match splitSlash cs with
      | [] => [[c]]
      | part :: rest => (c :: part) :: rest

/-- `current = current ? current + '/' + part : part` (src/main.ts line 317). -/
def joinSeg (current part : Str) : Str :=
  if current = [] then part else current ++ '/' :: part

/-- The segment loop of `ensureFolderExists` (src/main.ts lines 316-332):
a file in the indexed view at a segment is a fatal conflict; a folder in the
indexed view is skipped; otherwise `createFolder` is attempted and an
"already exists" failure (e.g. a concurrent creator, visible only on disk)
is treated as success. -/
def ensureGo (v : Vault) (current : Str) : List Str → Except Str Unit × Vault
  | [] => (.ok (), v)
  | part :: rest =>
    let cur := joinSeg current part
    match v.getAbstractFileByPath cur with
    | some .file =>
      (.error ("Cannot create folder because a file exists at \"".data ++ cur ++ "\"".data), v)
    | some .folder => ensureGo v cur rest
    | none =>
      match v.createFolder cur with
      | (.ok (), v') => ensureGo v' cur rest
      | (.error e, v') =>
        if isAlreadyExistsError e then ensureGo v' cur rest else (.error e, v')

/-- `ensureFolderExists` (src/main.ts lines 311-333). -/
def ensureFolderExists (v : Vault) (folderPath : Str) : Except Str Unit × Vault :=
  let cleanPath := normalizeVaultPath folderPath
  if cleanPath = [] then (.ok (), v)
  else ensureGo v [] ((splitSlash cleanPath).filter (fun p => p ≠ []))

/-- The observable outcome of one document conversion: a clean
"already exists" abort (user notice, normal return), or full success. -/
inductive ProcOut where
  | alreadyExists : ProcOut
  | success : ProcOut
deriving DecidableEq

/-- The final `try { await this.app.vault.create(...) } catch` of
`processPDFInternal` (src/main.ts lines 222-231): an "already exists"
failure from the underlying create call is converted into the clean
AlreadyExists outcome; any other failure is rethrown. -/
def createDocumentStep (v : Vault) (mdFilePath finalMd : Str) : Except Str ProcOut × Vault :=
  match Vault.create v mdFilePath finalMd with
  | (.ok (), v') => (.ok .success, v')
  | (.error e, v') =>
    if isAlreadyExistsError e then (.ok .alreadyExists, v') else (.error e, v')

deriving instance DecidableEq for Except

/-- The result of `processPDFInternal`: outcome, final vault state, and
whether the upstream network phase was ever invoked. -/
structure ProcResult where
  outcome : Except Str ProcOut
  vault : Vault
  upstreamCalled : Bool
deriving DecidableEq

/-- The images folder path of src/main.ts lines 209-218: `baseFolder` is
the normalised images output folder, `folderName` the normalised images
folder name defaulting to `pdf-mistral-images` (hence never empty); the two
are joined when both are present.  The source's local `let` bindings are
inlined. -/
def finalImagesPathOf (settings_imgFolder settings_imgName : Str) : Str :=
  if normalizeVaultPath settings_imgFolder ≠ [] ∧
      (if normalizeVaultPath settings_imgName ≠ [] then normalizeVaultPath settings_imgName
        else "pdf-mistral-images".data) ≠ [] then
    normalizeVaultPath settings_imgFolder ++ '/' ::
      (if normalizeVaultPath settings_imgName ≠ [] then normalizeVaultPath settings_imgName
        else "pdf-mistral-images".data)
  else if normalizeVaultPath settings_imgFolder ≠ [] then normalizeVaultPath settings_imgFolder
  else (if normalizeVaultPath settings_imgName ≠ [] then normalizeVaultPath settings_imgName
    else "pdf-mistral-images".data)

/-- `processPDFInternal` (src/main.ts lines 157-232): compute the target
path; check existence through both the indexed view and the direct storage
probe and abort cleanly if either hits; require an API key; run the upstream
network phase; ensure the output folders; assemble the document; create it
no-clobber, treating a late "already exists" as a clean abort. -/
def mdPathOf (settings_mdFolder pdfBaseName : Str) : Str :=
  let targetMdName := pdfBaseName ++ ".md".data
  let mdFolder := normalizeVaultPath settings_mdFolder
  if mdFolder ≠ [] then mdFolder ++ '/' :: targetMdName else targetMdName

def processPDFInternal (env : Env) (settings_mdFolder settings_imgFolder settings_imgName
    settings_apiKey : Str) (pdfBaseName : Str) (v : Vault) : ProcResult :=
  if (v.getAbstractFileByPath (mdPathOf settings_mdFolder pdfBaseName)).isSome ||
      v.adapterExists (mdPathOf settings_mdFolder pdfBaseName) then
    ⟨.ok .alreadyExists, v, false⟩
  else if trimWs settings_apiKey = [] then
    ⟨.error "Mistral API key is not set in settings.".data, v, false⟩
  else
    match env.ocrOutcome with
    | .error e => ⟨.error e, v, true⟩
    | .ok ocrResponse =>
      match (if normalizeVaultPath settings_mdFolder ≠ [] then
          ensureFolderExists v (normalizeVaultPath settings_mdFolder)
        else (.ok (), v)) with
      | (.error e, v1) => ⟨.error e, v1, true⟩
      | (.ok (), v1) =>
        match ensureFolderExists v1 (finalImagesPathOf settings_imgFolder settings_imgName) with
        | (.error e, v2) => ⟨.error e, v2, true⟩
        | (.ok (), v2) =>
          match combineMarkdownWithImages env ocrResponse pdfBaseName
              (finalImagesPathOf settings_imgFolder settings_imgName) v2 with
          | (.error e, v3, _) => ⟨.error e, v3, true⟩
          | (.ok finalMd, v3, _) =>
            match createDocumentStep v3 (mdPathOf settings_mdFolder pdfBaseName) finalMd with
            | (r, v4) => ⟨r, v4, true⟩

/-! ## General helper lemmas -/

theorem char_toNat_inj {c d : Char} (h : c.toNat = d.toNat) : c = d :=
  Char.eq_of_val_eq (UInt32.ext h)

theorem dropWhile_of_all_false {p : Char → Bool} {l : Str}
    (h : ∀ c ∈ l, p c = false) : l.dropWhile p = l := by
  cases l with
  | nil => rfl
  | cons c cs => simp [List.dropWhile, h c (by simp)]

theorem dropWhile_head_false {p : Char → Bool} {l : Str} {c : Char} {cs : Str}
    (h : l.dropWhile p = c :: cs) : p c = false := by
  have := List.head?_dropWhile_not p l
  rw [h] at this
  simpa using this

theorem dropWhile_idem (p : Char → Bool) (l : Str) :
    (l.dropWhile p).dropWhile p = l.dropWhile p := by
  rcases h : l.dropWhile p with - | ⟨c, cs⟩
  · rfl
  · simp [List.dropWhile, dropWhile_head_false h]

theorem alookup_none_countP {α : Type} {L : List (Str × α)} {s : Str}
    (h : alookup L s = none) : L.countP (fun e => decide (e.1 = s)) = 0 := by
  induction L with
  | nil => rfl
  | cons e rest ih =>
    rw [alookup] at h
    by_cases he : e.1 = s
    · rw [if_pos he] at h; exact absurd h (by simp)
    · rw [if_neg he] at h
      rw [List.countP_cons]
      simp [he, ih h]

/-! ## Sorting: permutation, sortedness, stability -/

theorem orderedInsertPage_perm (x : OcrPage) (l : List OcrPage) :
    (orderedInsertPage x l).Perm (x :: l) := by
  induction l with
  | nil => simp [orderedInsertPage]
  | cons y ys ih =>
    rw [orderedInsertPage]
    by_cases h : pageSortLE x y = true
    · rw [if_pos h]
    · rw [if_neg h]
      exact (ih.cons y).trans (List.Perm.swap x y ys)

theorem sortPages_perm (l : List OcrPage) : (sortPages l).Perm l := by
  induction l with
  | nil => simp [sortPages]
  | cons x xs ih =>
    rw [sortPages]
    exact (orderedInsertPage_perm x (sortPages xs)).trans (ih.cons x)

/-- The index ordering the output is sorted by (reading the claim's
"ascending page-index order" on pages that do carry an index). -/
def pageIdxLE (a b : OcrPage) : Prop := a.index.getD 0 ≤ b.index.getD 0

theorem pageSortLE_some_iff {a b : OcrPage} {i j : Int} (ha : a.index = some i)
    (hb : b.index = some j) : pageSortLE a b = true ↔ i ≤ j := by
  rw [pageSortLE, ha, hb]
  simp

theorem orderedInsertPage_pairwise {x : OcrPage} {l : List OcrPage}
    (hx : x.index.isSome) (hl : ∀ p ∈ l, (p : OcrPage).index.isSome)
    (h : l.Pairwise pageIdxLE) : (orderedInsertPage x l).Pairwise pageIdxLE := by
  induction l with
  | nil => simp [orderedInsertPage]
  | cons y ys ih =>
    obtain ⟨i, hi⟩ := Option.isSome_iff_exists.mp hx
    obtain ⟨j, hj⟩ := Option.isSome_iff_exists.mp (hl y (by simp))
    rw [orderedInsertPage]
    rw [List.pairwise_cons] at h
    by_cases hle : pageSortLE x y = true
    · rw [if_pos hle]
      have hij : i ≤ j := (pageSortLE_some_iff hi hj).mp hle
      refine List.Pairwise.cons ?_ (List.Pairwise.cons h.1 h.2)
      intro z hz
      rw [List.mem_cons] at hz
      rcases hz with hz | hz
      · subst hz
        rw [pageIdxLE, hi, hj]
        simpa using hij
      · have hyz := h.1 z hz
        rw [pageIdxLE] at hyz ⊢
        rw [hi]
        rw [hj] at hyz
        simp at hyz ⊢
        omega
    · rw [if_neg hle]
      have hji : j ≤ i := by
        have := (pageSortLE_some_iff hi hj).not.mp hle
        omega
      refine List.Pairwise.cons ?_ (ih (fun p hp => hl p (by simp [hp])) h.2)
      intro z hz
      have hz' : z ∈ x :: ys := (orderedInsertPage_perm x ys).mem_iff.mp hz
      rw [List.mem_cons] at hz'
      rcases hz' with hz' | hz'
      · subst hz'
        rw [pageIdxLE, hi, hj]
        simpa using hji
      · exact h.1 z hz'

theorem sortPages_pairwise {l : List OcrPage}
    (hl : ∀ p ∈ l, (p : OcrPage).index.isSome) :
    (sortPages l).Pairwise pageIdxLE := by
  induction l with
  | nil => simp [sortPages]
  | cons x xs ih =>
    rw [sortPages]
    refine orderedInsertPage_pairwise (hl x (by simp)) ?_ (ih (fun p hp => hl p (by simp [hp])))
    intro p hp
    exact hl p (by simp [(sortPages_perm xs).mem_iff.mp hp])

theorem orderedInsertPage_filter (x : OcrPage) (l : List OcrPage) (k : Int) :
    (orderedInsertPage x l).filter (fun p => decide (p.index = some k)) =
      if x.index = some k then x :: l.filter (fun p => decide (p.index = some k))
      else l.filter (fun p => decide (p.index = some k)) := by
  induction l with
  | nil => by_cases h : x.index = some k <;> simp [orderedInsertPage, List.filter, h]
  | cons y ys ih =>
    rw [orderedInsertPage]
    by_cases hle : pageSortLE x y = true
    · rw [if_pos hle]
      by_cases hx : x.index = some k <;> simp [List.filter, hx]
    · rw [if_neg hle]
      have hy : decide (y.index = some k) = decide (y.index = some k) := rfl
      by_cases hx : x.index = some k
      · -- x has index k; since pageSortLE x y failed, y's index is < k, so ≠ k
        have hyk : y.index ≠ some k := by
          intro hyk
          apply hle
          rw [pageSortLE, hx, hyk]
          simp
        rw [if_pos hx]
        rw [List.filter_cons, List.filter_cons]
        simp only [hyk, decide_eq_true_eq, if_neg]
        rw [ih, if_pos hx]
        simp [hyk]
      · rw [if_neg hx]
        rw [List.filter_cons, List.filter_cons]
        rw [ih, if_neg hx]

theorem sortPages_filter (l : List OcrPage) (k : Int) :
    (sortPages l).filter (fun p => decide (p.index = some k)) =
      l.filter (fun p => decide (p.index = some k)) := by
  induction l with
  | nil => rfl
  | cons x xs ih =>
    rw [sortPages, orderedInsertPage_filter, List.filter_cons]
    by_cases hx : x.index = some k
    · simp [hx, ih]
    · simp [hx, ih]

/-! ## The page-text function and its agreement with the effectful loop -/

/-- The text produced by the image loop for one page, as a pure function
(the loop's text transformations never read the vault). -/
def imagesText (pdfBaseName finalImagesPath : Str) (pageNumber : Int) (imageIndex : Nat)
    (md : Str) : List OcrImage → Str
  | [] => md
  | img :: rest =>
    imagesText pdfBaseName finalImagesPath pageNumber (imageIndex + 1)
      (imageTextStep pdfBaseName finalImagesPath pageNumber imageIndex md img).1 rest

/-- The fully processed markdown of one page (meaningful when the page
carries a numeric index, so that the enumeration fallback is irrelevant). -/
def pageText (pdfBaseName finalImagesPath : Str) (p : OcrPage) : Str :=
  imagesText pdfBaseName finalImagesPath (p.index.getD 0) 0 (p.markdown.getD []) (p.images.getD [])

/-- Concatenation of processed page texts, each followed by the blank-line
separator, in list order. -/
def renderPages (pdfBaseName finalImagesPath : Str) : List OcrPage → Str
  | [] => []
  | p :: rest =>
    pageText pdfBaseName finalImagesPath p ++ "\n\n".data ++ renderPages pdfBaseName finalImagesPath rest

theorem processImages_text {env : Env} (hw : ∀ p, env.writeFails p = false)
    (pdfBaseName finalImagesPath : Str) (pageNumber : Int) :
    ∀ (imgs : List OcrImage) (imageIndex : Nat) (md : Str) (v : Vault),
    (processImages env pdfBaseName finalImagesPath pageNumber imageIndex md v imgs).1 =
      .ok (imagesText pdfBaseName finalImagesPath pageNumber imageIndex md imgs) := by
  intro imgs
  induction imgs with
  | nil => intro imageIndex md v; rfl
  | cons img rest ih =>
    intro imageIndex md v
    rw [processImages, imagesText, imageStep]
    rcases hstep : imageTextStep pdfBaseName finalImagesPath pageNumber imageIndex md img
        with ⟨md', req⟩
    rcases req with - | ⟨path, buffer⟩
    · simpa using ih (imageIndex + 1) md' v
    · simp only [saveImageBuffer, hw path]
      simpa using ih (imageIndex + 1) md' (v.writeBinary path buffer)

theorem processPages_text {env : Env} (hw : ∀ p, env.writeFails p = false)
    (pdfBaseName finalImagesPath : Str) :
    ∀ (l : List OcrPage), (∀ p ∈ l, (p : OcrPage).index.isSome) →
    ∀ (acc : Str) (v : Vault) (pageIndex : Nat),
    (processPages env pdfBaseName finalImagesPath acc v pageIndex l).1 =
      .ok (acc ++ renderPages pdfBaseName finalImagesPath l) := by
  intro l
  induction l with
  | nil => intro _ acc v pageIndex; simp [processPages, renderPages]
  | cons p rest ih =>
    intro hidx acc v pageIndex
    obtain ⟨n, hn⟩ := Option.isSome_iff_exists.mp (hidx p (by simp))
    rw [processPages]
    have hnum : (match p.index with
        | some n => n
        | none => Int.ofNat pageIndex) = p.index.getD 0 := by
      rw [hn]; rfl
    rcases hpi : processImages env pdfBaseName finalImagesPath
        (match p.index with
        | some n => n
        | none => Int.ofNat pageIndex) 0 (p.markdown.getD []) v (p.images.getD [])
        with ⟨r, v'⟩
    have htext := processImages_text hw pdfBaseName finalImagesPath
        (match p.index with
        | some n => n
        | none => Int.ofNat pageIndex) (p.images.getD []) 0 (p.markdown.getD []) v
    rw [hpi] at htext
    simp only at htext
    subst htext
    simp only
    rw [ih (fun q hq => hidx q (by simp [hq])) _ v' (pageIndex + 1)]
    rw [renderPages, pageText, hnum]
    simp

/-- C3: for every OCR result with at least one page (all carrying numeric
indices) and any input order of those pages, the assembled output is the
concatenation of the processed page texts, each followed by a blank-line
separator, taken in ascending page-index order with equal indices kept in
their original input order (the sort is a stable ascending sort, witnessed
by the pairwise ordering, the index-fiber preservation, and the
permutation property). -/
theorem c3_pages_ascending_stable (env : Env) (ocr : OcrResult)
    (pdfBaseName finalImagesPath : Str) (v : Vault) (l : List OcrPage)
    (hpages : ocr.pages = some l) (hne : l ≠ [])
    (hidx : ∀ p ∈ l, (p : OcrPage).index.isSome)
    (hw : ∀ p, env.writeFails p = false) :
    (combineMarkdownWithImages env ocr pdfBaseName finalImagesPath v).1 =
      .ok (renderPages pdfBaseName finalImagesPath (sortPages l)) ∧
    (sortPages l).Pairwise pageIdxLE ∧
    (∀ k : Int, (sortPages l).filter (fun p => decide (p.index = some k)) =
      l.filter (fun p => decide (p.index = some k))) ∧
    (sortPages l).Perm l := by
  refine ⟨?_, sortPages_pairwise hidx, fun k => sortPages_filter l k, sortPages_perm l⟩
  obtain ⟨pg⟩ := ocr
  obtain rfl : pg = some l := hpages
  rw [combineMarkdownWithImages]
  dsimp only
  rw [if_neg hne]
  have hsidx : ∀ q ∈ sortPages l, (q : OcrPage).index.isSome := fun q hq =>
    hidx q ((sortPages_perm l).mem_iff.mp hq)
  have htext := processPages_text hw pdfBaseName finalImagesPath (sortPages l) hsidx [] v 0
  rcases hpp : processPages env pdfBaseName finalImagesPath [] v 0 (sortPages l) with ⟨r, v'⟩
  rw [hpp] at htext
  simp only at htext
  subst htext
  simp

def envW3 : Env := ⟨fun _ => false, .error []⟩

def pagesW3 : List OcrPage :=
  [⟨some 1, some "b".data, none⟩, ⟨some 0, some "a".data, none⟩]

def ocrW3 : OcrResult := ⟨some pagesW3⟩

theorem c3_witness :
    (combineMarkdownWithImages envW3 ocrW3 "doc".data "imgs".data ⟨[], []⟩).1 =
      .ok (renderPages "doc".data "imgs".data (sortPages pagesW3)) ∧
    (sortPages pagesW3).Pairwise pageIdxLE ∧
    (∀ k : Int, (sortPages pagesW3).filter (fun p => decide (p.index = some k)) =
      pagesW3.filter (fun p => decide (p.index = some k))) ∧
    (sortPages pagesW3).Perm pagesW3 :=
  c3_pages_ascending_stable envW3 ocrW3 "doc".data "imgs".data ⟨[], []⟩ pagesW3 rfl
    (by decide) (by decide) (fun p => rfl)

def ocrC5 : OcrResult :=
  ⟨some [⟨some 1, some "b".data, none⟩, ⟨some 0, some "a".data, none⟩]⟩

/-- C5 counterexample: the assembly pipeline does mutate its input — the
source sorts `ocrResult.pages` in place, so after a run on a result whose
pages arrive out of order the input object's pages collection is reordered
(here pages with indices [1, 0] end up as [0, 1]). -/
theorem c5_counterexample :
    (combineMarkdownWithImages ⟨fun _ => false, .error []⟩ ocrC5
      "doc".data "imgs".data ⟨[], []⟩).2.2 ≠ ocrC5 := by
  decide

/-- C5 (amended): the pipeline never mutates any individual page — after a
run the input's pages collection holds exactly the original page values
(same markdown, same images, same indices), but as a permutation: the
collection itself is reordered in place by the sort. -/
theorem c5_amended (env : Env) (ocr : OcrResult) (pdfBaseName finalImagesPath : Str)
    (v : Vault) (l : List OcrPage) (hpages : ocr.pages = some l) :
    ∃ l2, (combineMarkdownWithImages env ocr pdfBaseName finalImagesPath v).2.2 =
      OcrResult.mk (some l2) ∧ l2.Perm l := by
  obtain ⟨pg⟩ := ocr
  obtain rfl : pg = some l := hpages
  rw [combineMarkdownWithImages]
  dsimp only
  by_cases hne : l = []
  · subst hne
    rw [if_pos rfl]
    exact ⟨[], rfl, List.Perm.refl []⟩
  · rw [if_neg hne]
    rcases hpp : processPages env pdfBaseName finalImagesPath [] v 0 (sortPages l)
        with ⟨r, v'⟩
    cases r with
    | ok md => exact ⟨sortPages l, rfl, sortPages_perm l⟩
    | error e => exact ⟨sortPages l, rfl, sortPages_perm l⟩

def ocrC5w : OcrResult := ⟨some [⟨some 3, some "x".data, none⟩]⟩

theorem c5_amended_witness :
    ∃ l2, (combineMarkdownWithImages ⟨fun _ => false, .error []⟩ ocrC5w
      "d".data "i".data ⟨[], []⟩).2.2 = OcrResult.mk (some l2) ∧
      l2.Perm [⟨some 3, some "x".data, none⟩] :=
  c5_amended _ ocrC5w "d".data "i".data ⟨[], []⟩ _ rfl

/-! ## Image-loop lemmas: unresolved payloads, blank identifiers, write failures -/

theorem imageTextStep_unresolved {pdfBaseName finalImagesPath : Str} {pageNumber : Int}
    {imageIndex : Nat} {md : Str} {img : OcrImage}
    (h : rawB64Of img = [] ∨ endsWithStr (trimWs (rawB64Of img)) "...".data = true) :
    imageTextStep pdfBaseName finalImagesPath pageNumber imageIndex md img =
      (removeImageReference md (rawIdOf img pageNumber imageIndex), none) := by
  rw [imageTextStep]
  by_cases h0 : rawB64Of img = []
  · simp [h0]
  · rcases h with h | h1
    · exact absurd h h0
    · simp [h0, h1]

/-- C7: an image whose payload is missing/empty, or whose trimmed payload
ends with the `...` truncation marker, is treated as unresolvable: its
marker is removed from the page text via `removeImageReference`, no file is
written (the vault is unchanged), and the step succeeds so the loop
continues with the remaining images. -/
theorem c7_truncated_or_empty_removed (env : Env) (pdfBaseName finalImagesPath : Str)
    (pageNumber : Int) (imageIndex : Nat) (md : Str) (v : Vault) (img : OcrImage)
    (h : rawB64Of img = [] ∨ endsWithStr (trimWs (rawB64Of img)) "...".data = true) :
    imageStep env pdfBaseName finalImagesPath pageNumber imageIndex md v img =
      (.ok (removeImageReference md (rawIdOf img pageNumber imageIndex)), v) := by
  rw [imageStep, imageTextStep_unresolved h]

def imgW7 : OcrImage := ⟨some "img-2.jpeg".data, some "data:image/jpeg;base64,//////9h...".data, none⟩

theorem c7_witness :
    imageStep ⟨fun _ => false, .error []⟩ "doc".data "imgs".data 0 0
      "a ![x](img-2.jpeg) b".data ⟨[], []⟩ imgW7 =
      (.ok (removeImageReference "a ![x](img-2.jpeg) b".data (rawIdOf imgW7 0 0)), ⟨[], []⟩) :=
  c7_truncated_or_empty_removed ⟨fun _ => false, .error []⟩ "doc".data "imgs".data 0 0
    "a ![x](img-2.jpeg) b".data ⟨[], []⟩ imgW7 (Or.inr (by decide))

theorem natToCharsC_prop (P : Char → Prop) (hP : ∀ d, d < 10 → P (digitChar d)) :
    ∀ fuel n, ∀ c ∈ natToCharsC fuel n, P c := by
  intro fuel
  induction fuel with
  | zero => intro n c hc; simp [natToCharsC] at hc
  | succ fuel ih =>
    intro n c hc
    rw [natToCharsC] at hc
    by_cases h : n < 10
    · rw [if_pos h] at hc
      simp at hc
      subst hc
      exact hP n h
    · rw [if_neg h] at hc
      rw [List.mem_append] at hc
      rcases hc with hc | hc
      · exact ih (n / 10) c hc
      · simp at hc
        subst hc
        exact hP (n % 10) (Nat.mod_lt _ (by omega))

theorem natToChars_prop (P : Char → Prop) (hP : ∀ d, d < 10 → P (digitChar d)) :
    ∀ n, ∀ c ∈ natToChars n, P c := fun n => natToCharsC_prop P hP (n + 1) n

/-- The characters of a synthesised fallback identifier are plain (not
reserved, not whitespace, not a dot), so the sanitizer and the trailing
extension stripper leave it unchanged. -/
theorem fallbackId_chars (pageNumber : Int) (imageIndex : Nat) :
    ∀ c ∈ fallbackId pageNumber imageIndex,
      isSanBad c = false ∧ isJsSpace c = false ∧ c ≠ '.' := by
  have hdig : ∀ d, d < 10 →
      isSanBad (digitChar d) = false ∧ isJsSpace (digitChar d) = false ∧ digitChar d ≠ '.' := by
    intro d hd
    interval_cases d <;> exact ⟨by decide, by decide, by decide⟩
  have hnat := natToChars_prop
    (fun c => isSanBad c = false ∧ isJsSpace c = false ∧ c ≠ '.') hdig
  have hdash : isSanBad '-' = false ∧ isJsSpace '-' = false ∧ ('-' : Char) ≠ '.' :=
    ⟨by decide, by decide, by decide⟩
  intro c hc
  rw [fallbackId, List.mem_append] at hc
  rcases hc with hc | hc
  · rw [List.mem_append] at hc
    rcases hc with hc | hc
    · fin_cases hc <;> exact ⟨by decide, by decide, by decide⟩
    · rw [intToChars] at hc
      by_cases hneg : pageNumber < 0
      · rw [if_pos hneg] at hc
        rcases List.mem_cons.mp hc with hc | hc
        · subst hc; exact hdash
        · exact hnat _ c hc
      · rw [if_neg hneg] at hc
        exact hnat _ c hc
  · rcases List.mem_cons.mp hc with hc | hc
    · subst hc; exact hdash
    · exact hnat _ c hc

theorem map_sanChar_id {l : Str} (h : ∀ c ∈ l, isSanBad c = false) :
    l.map sanChar = l := by
  induction l with
  | nil => rfl
  | cons c cs ih =>
    rw [List.map_cons, sanChar, h c (by simp), ih (fun d hd => h d (by simp [hd]))]
    simp

theorem collapseWs_cons_nonspace {a : Char} {cs : Str} (ha : isJsSpace a = false) :
    collapseWs (a :: cs) = a :: collapseWs cs := by
  rcases cs with - | ⟨c2, cs2⟩
  · simp [collapseWs, ha]
  · rw [collapseWs, if_neg (by simp [ha])]

theorem collapseWs_all_nonspace {l : Str} (h : ∀ c ∈ l, isJsSpace c = false) :
    collapseWs l = l := by
  induction l with
  | nil => rfl
  | cons c cs ih =>
    rw [collapseWs_cons_nonspace (h c (by simp)), ih (fun d hd => h d (by simp [hd]))]

theorem sanitizeFileName_fixed {l : Str}
    (h : ∀ c ∈ l, isSanBad c = false ∧ isJsSpace c = false ∧ c ≠ '.') :
    sanitizeFileName l = l := by
  rw [sanitizeFileName]
  rw [map_sanChar_id (fun c hc => (h c hc).1)]
  rw [collapseWs_all_nonspace (fun c hc => (h c hc).2.1)]
  rw [trimWs, dropWhile_of_all_false (fun c hc => (h c hc).2.1)]
  rw [dropWhile_of_all_false (fun c hc => (h c (List.mem_reverse.mp hc)).2.1)]
  rw [List.reverse_reverse]
  rw [stripTrailingDotSpace]
  rw [dropWhile_of_all_false ?hp]
  · rw [List.reverse_reverse]
  case hp =>
    intro c hc
    have hcl := h c (List.mem_reverse.mp hc)
    have hsp : c ≠ ' ' := by
      intro hsp
      subst hsp
      exact absurd hcl.2.1 (by decide)
    simp [hcl.2.2, hsp]

theorem stripTrailingExt_fixed {l : Str} (h : ∀ c ∈ l, c ≠ '.') :
    stripTrailingExt l = l := by
  rw [stripTrailingExt]
  by_cases hrun : l.reverse.takeWhile (fun c => c ≠ '/' && c ≠ '.') = []
  · rw [if_pos hrun]
  · rw [if_neg hrun]
    rcases hd : l.reverse.drop (l.reverse.takeWhile (fun c => c ≠ '/' && c ≠ '.')).length
        with - | ⟨d, ds⟩
    · rfl
    · have hdl : d ∈ l := by
        have hmem : d ∈ l.reverse.drop
            (l.reverse.takeWhile (fun c => c ≠ '/' && c ≠ '.')).length := by
          rw [hd]; simp
        exact List.mem_reverse.mp (List.drop_subset _ _ hmem)
      simp [h d hdl]

theorem rawIdOf_blank {img : OcrImage} (h : idNonBlank img = false)
    (pageNumber : Int) (imageIndex : Nat) :
    rawIdOf img pageNumber imageIndex = fallbackId pageNumber imageIndex := by
  rw [rawIdOf, idNonBlank] at *
  cases himg : img.id with
  | none => rfl
  | some s =>
    rw [himg] at h
    simp at h
    simp [h]

/-- C9: when the image's identifier is absent or whitespace-only, no marker
rewrite is attempted on successful resolution — the page text comes out of
the step byte-for-byte unchanged — while the image bytes are still
persisted under the synthesized fallback identifier
`img-<pageIndex>-<positionInPage>`. -/
theorem c9_blank_id_no_rewrite_still_saved (env : Env) (pdfBaseName finalImagesPath : Str)
    (pageNumber : Int) (imageIndex : Nat) (md : Str) (v : Vault) (img : OcrImage)
    (data : ResolvedImage)
    (hblank : idNonBlank img = false)
    (hne : rawB64Of img ≠ [])
    (htr : endsWithStr (trimWs (rawB64Of img)) "...".data = false)
    (hres : resolveOcrImageData (fallbackId pageNumber imageIndex) (rawB64Of img) = some data)
    (hw : env.writeFails (finalImagesPath ++ '/' ::
      (sanitizeFileName pdfBaseName ++ '_' :: (fallbackId pageNumber imageIndex ++
        '.' :: data.extension))) = false) :
    imageStep env pdfBaseName finalImagesPath pageNumber imageIndex md v img =
      (.ok md, v.writeBinary (finalImagesPath ++ '/' ::
        (sanitizeFileName pdfBaseName ++ '_' :: (fallbackId pageNumber imageIndex ++
          '.' :: data.extension))) data.buffer) := by
  have hfb := rawIdOf_blank hblank pageNumber imageIndex
  have hchars := fallbackId_chars pageNumber imageIndex
  have hsan : sanitizeFileName (fallbackId pageNumber imageIndex) =
      fallbackId pageNumber imageIndex := sanitizeFileName_fixed hchars
  have hstrip : stripTrailingExt (fallbackId pageNumber imageIndex) =
      fallbackId pageNumber imageIndex :=
    stripTrailingExt_fixed (fun c hc => (hchars c hc).2.2)
  simp only [imageStep, imageTextStep, hfb, hne, htr, hres, hsan, hstrip, hblank,
    saveImageBuffer]
  simp [hw]

def imgW9 : OcrImage := ⟨some "   ".data, some "data:image/png;base64,AAAA".data, none⟩

theorem c9_witness :
    imageStep ⟨fun _ => false, .error []⟩ "doc".data "imgs".data 2 0
      "x ![a](b) y".data ⟨[], []⟩ imgW9 =
      (.ok "x ![a](b) y".data, Vault.writeBinary ⟨[], []⟩ ("imgs".data ++ '/' ::
        (sanitizeFileName "doc".data ++ '_' :: (fallbackId 2 0 ++
          '.' :: (ResolvedImage.mk [0, 0, 0] "png".data).extension))) [0, 0, 0]) :=
  c9_blank_id_no_rewrite_still_saved ⟨fun _ => false, .error []⟩ "doc".data "imgs".data 2 0
    "x ![a](b) y".data ⟨[], []⟩ imgW9 ⟨[0, 0, 0], "png".data⟩
    (by decide) (by decide) (by decide) (by decide) rfl

def ocrC1 : OcrResult :=
  ⟨some [⟨some 0, some "intro ![p](img-0.jpeg) end".data,
    some [⟨some "img-0.jpeg".data, some "data:image/png;base64,AAAA".data, none⟩]⟩]⟩

/-- C1 counterexample: a persistence failure for a single image DOES abort
the document conversion — `saveImageBuffer` is awaited without a
try/catch, so with a storage layer whose binary write throws, the whole
assembly returns the write error instead of removing the marker and
continuing. -/
theorem c1_counterexample :
    (combineMarkdownWithImages ⟨fun _ => true, .error []⟩ ocrC1
      "doc".data "imgs".data ⟨[], []⟩).1 = .error "writeBinary failed".data := by
  decide

/-- C1 (amended): resolution failures (missing, truncated or undecodable
payloads, i.e. steps that produce no write request) are absorbed locally —
the step succeeds with the marker-removed text and processing continues —
but a persistence failure of the image write is NOT absorbed: the step
returns the storage error, which propagates and aborts the page loop and
the document conversion. -/
theorem c1_amended :
    (∀ (env : Env) (pdfBaseName finalImagesPath : Str) (pageNumber : Int)
      (imageIndex : Nat) (md : Str) (v : Vault) (img : OcrImage)
      (md' path : Str) (buffer : List Nat),
      imageTextStep pdfBaseName finalImagesPath pageNumber imageIndex md img =
        (md', some (path, buffer)) →
      env.writeFails path = true →
      imageStep env pdfBaseName finalImagesPath pageNumber imageIndex md v img =
        (.error "writeBinary failed".data, v)) ∧
    (∀ (env : Env) (pdfBaseName finalImagesPath : Str) (pageNumber : Int)
      (imageIndex : Nat) (md : Str) (v : Vault) (img : OcrImage) (md' : Str),
      imageTextStep pdfBaseName finalImagesPath pageNumber imageIndex md img = (md', none) →
      imageStep env pdfBaseName finalImagesPath pageNumber imageIndex md v img =
        (.ok md', v)) := by
  constructor
  · intro env pdfBaseName finalImagesPath pageNumber imageIndex md v img md' path buffer
      hstep hw
    rw [imageStep, hstep]
    simp [saveImageBuffer, hw]
  · intro env pdfBaseName finalImagesPath pageNumber imageIndex md v img md' hstep
    rw [imageStep, hstep]

def imgC1w : OcrImage := ⟨none, some "data:image/png;base64,AAAA".data, none⟩

theorem c1_amended_witness :
    imageStep ⟨fun _ => true, .error []⟩ "d".data "i".data 0 0 "t".data ⟨[], []⟩ imgC1w =
      (.error "writeBinary failed".data, ⟨[], []⟩) :=
  c1_amended.1 ⟨fun _ => true, .error []⟩ "d".data "i".data 0 0 "t".data ⟨[], []⟩ imgC1w
    "t".data "i/d_img-0-0.png".data [0, 0, 0] (by decide) rfl

/-- C6: for a payload that decodes to non-empty bytes, the resolver picks
the extension by, in order: (a) the declared data-URL mime type through the
mime table; (b) the identifier's trailing extension normalised through the
alias table (which sends both `jpg` and `jpeg` spellings to the one
canonical extension); (c) the magic-number sniff of the decoded bytes;
(d) the generic fallback `bin`. -/
theorem c6_extension_priority (imageId base64 : Str) (r : ResolvedImage)
    (h : resolveOcrImageData imageId base64 = some r) :
    (∀ e, extensionFromMime ((parseDataUrl (trimWs base64)).map ParsedDataUrl.mime) = some e →
      r.extension = e) ∧
    (extensionFromMime ((parseDataUrl (trimWs base64)).map ParsedDataUrl.mime) = none →
      ∀ e, extensionFromImageId imageId = some e → r.extension = e) ∧
    (extensionFromMime ((parseDataUrl (trimWs base64)).map ParsedDataUrl.mime) = none →
      extensionFromImageId imageId = none →
      ∀ e, detectImageExtensionFromBuffer r.buffer = some e → r.extension = e) ∧
    (extensionFromMime ((parseDataUrl (trimWs base64)).map ParsedDataUrl.mime) = none →
      extensionFromImageId imageId = none →
      detectImageExtensionFromBuffer r.buffer = none → r.extension = "bin".data) ∧
    (extensionFromImageId "a.jpg".data = some "jpg".data ∧
      extensionFromImageId "a.jpeg".data = some "jpg".data) := by
  refine ⟨?_, ?_, ?_, ?_, by decide, by decide⟩
  · intro e hm
    simp only [resolveOcrImageData, hm] at h
    split at h
    · exact absurd h (by simp)
    · rw [← Option.some_inj.mp h]
  · intro hm e hi
    simp only [resolveOcrImageData, hm, hi] at h
    split at h
    · exact absurd h (by simp)
    · rw [← Option.some_inj.mp h]
  · intro hm hi e hd
    simp only [resolveOcrImageData, hm, hi] at h
    split at h
    · exact absurd h (by simp)
    · rw [← Option.some_inj.mp h] at hd ⊢
      simp only at hd
      rw [hd]
  · intro hm hi hd
    simp only [resolveOcrImageData, hm, hi] at h
    split at h
    · exact absurd h (by simp)
    · rw [← Option.some_inj.mp h] at hd ⊢
      simp only at hd
      rw [hd]

theorem c6_witness :
    (∀ e, extensionFromMime ((parseDataUrl (trimWs "data:image/webp;base64,AAAA".data)).map
      ParsedDataUrl.mime) = some e → (ResolvedImage.mk [0, 0, 0] "webp".data).extension = e) ∧
    (extensionFromMime ((parseDataUrl (trimWs "data:image/webp;base64,AAAA".data)).map
      ParsedDataUrl.mime) = none →
      ∀ e, extensionFromImageId "pic.tif".data = some e →
        (ResolvedImage.mk [0, 0, 0] "webp".data).extension = e) ∧
    (extensionFromMime ((parseDataUrl (trimWs "data:image/webp;base64,AAAA".data)).map
      ParsedDataUrl.mime) = none → extensionFromImageId "pic.tif".data = none →
      ∀ e, detectImageExtensionFromBuffer (ResolvedImage.mk [0, 0, 0] "webp".data).buffer =
        some e → (ResolvedImage.mk [0, 0, 0] "webp".data).extension = e) ∧
    (extensionFromMime ((parseDataUrl (trimWs "data:image/webp;base64,AAAA".data)).map
      ParsedDataUrl.mime) = none → extensionFromImageId "pic.tif".data = none →
      detectImageExtensionFromBuffer (ResolvedImage.mk [0, 0, 0] "webp".data).buffer = none →
      (ResolvedImage.mk [0, 0, 0] "webp".data).extension = "bin".data) ∧
    (extensionFromImageId "a.jpg".data = some "jpg".data ∧
      extensionFromImageId "a.jpeg".data = some "jpg".data) :=
  c6_extension_priority "pic.tif".data "data:image/webp;base64,AAAA".data
    ⟨[0, 0, 0], "webp".data⟩ (by decide)

/-- C2: the conversion checks the target document path through both the
host's indexed view and the direct storage probe before anything else; if
either indicates presence it aborts with the clean AlreadyExists outcome,
the vault entirely unchanged (nothing overwritten) and the upstream network
phase never invoked.  Moreover an "already exists" failure surfaced by the
underlying create call at write time is caught and converted into the same
clean AlreadyExists outcome instead of an escalated error. -/
theorem c2_dual_existence_check (env : Env)
    (settings_mdFolder settings_imgFolder settings_imgName settings_apiKey : Str)
    (pdfBaseName : Str) (v : Vault) :
    (((v.getAbstractFileByPath (mdPathOf settings_mdFolder pdfBaseName)).isSome = true ∨
        v.adapterExists (mdPathOf settings_mdFolder pdfBaseName) = true) →
      processPDFInternal env settings_mdFolder settings_imgFolder settings_imgName
        settings_apiKey pdfBaseName v = ⟨.ok .alreadyExists, v, false⟩) ∧
    (∀ (v2 : Vault) (content : Str),
      ((v2.getAbstractFileByPath (mdPathOf settings_mdFolder pdfBaseName)).isSome = true ∨
        v2.adapterExists (mdPathOf settings_mdFolder pdfBaseName) = true) →
      createDocumentStep v2 (mdPathOf settings_mdFolder pdfBaseName) content =
        (.ok .alreadyExists, v2)) := by
  constructor
  · intro h
    have hcond : ((v.getAbstractFileByPath (mdPathOf settings_mdFolder pdfBaseName)).isSome ||
        v.adapterExists (mdPathOf settings_mdFolder pdfBaseName)) = true := by
      rcases h with h | h <;> simp [h]
    rw [processPDFInternal, if_pos hcond]
  · intro v2 content h
    have hcond : ((alookup v2.index (mdPathOf settings_mdFolder pdfBaseName)).isSome ||
        (alookup v2.disk (mdPathOf settings_mdFolder pdfBaseName)).isSome) = true := by
      rcases h with h | h
      · rw [Vault.getAbstractFileByPath] at h; simp [h]
      · rw [Vault.adapterExists] at h; simp [h]
    rw [createDocumentStep, Vault.create, if_pos hcond]
    simp only
    rw [if_pos (by decide)]

theorem c2_witness :
    processPDFInternal ⟨fun _ => false, .error []⟩ [] [] [] "k".data "doc".data
      ⟨[("doc.md".data, VEntry.file)], []⟩ =
      ⟨.ok .alreadyExists, ⟨[("doc.md".data, VEntry.file)], []⟩, false⟩ :=
  (c2_dual_existence_check ⟨fun _ => false, .error []⟩ [] [] [] "k".data "doc".data
    ⟨[("doc.md".data, VEntry.file)], []⟩).1 (Or.inl (by decide))

/-! ## Folder creation only ever records folders -/

/-- Every indexed entry is a folder. -/
def onlyFoldersI (v : Vault) : Prop :=
  ∀ p e, alookup v.index p = some e → e = VEntry.folder

/-- Every direct-storage entry is a folder. -/
def onlyFoldersD (v : Vault) : Prop :=
  ∀ p e, alookup v.disk p = some e → e = DiskEntry.folder

theorem ensureGo_onlyFolders : ∀ (parts : List Str) (v : Vault) (cur : Str),
    onlyFoldersI v → onlyFoldersD v →
    (ensureGo v cur parts).1 = .ok () ∧ onlyFoldersI (ensureGo v cur parts).2 ∧
      onlyFoldersD (ensureGo v cur parts).2 := by
  intro parts
  induction parts with
  | nil => intro v cur hI hD; exact ⟨rfl, hI, hD⟩
  | cons part rest ih =>
    intro v cur hI hD
    rw [ensureGo]
    simp only
    rcases hlook : v.getAbstractFileByPath (joinSeg cur part) with - | e
    · rw [Vault.createFolder]
      by_cases hex : ((alookup v.index (joinSeg cur part)).isSome ||
          (alookup v.disk (joinSeg cur part)).isSome) = true
      · rw [if_pos hex]
        simp only
        rw [if_pos (by decide)]
        exact ih v (joinSeg cur part) hI hD
      · rw [if_neg hex]
        simp only
        refine ih _ (joinSeg cur part) ?_ ?_
        · intro p e hp
          rw [alookup] at hp
          by_cases hpe : joinSeg cur part = p
          · rw [if_pos hpe] at hp
            exact (Option.some_inj.mp hp).symm
          · rw [if_neg hpe] at hp
            exact hI p e hp
        · intro p e hp
          rw [alookup] at hp
          by_cases hpe : joinSeg cur part = p
          · rw [if_pos hpe] at hp
            exact (Option.some_inj.mp hp).symm
          · rw [if_neg hpe] at hp
            exact hD p e hp
    · cases e with
      | file => exact absurd (hI _ _ hlook) (by decide)
      | folder => exact ih v (joinSeg cur part) hI hD

theorem ensureFolderExists_onlyFolders {v : Vault} (hI : onlyFoldersI v)
    (hD : onlyFoldersD v) (p : Str) :
    (ensureFolderExists v p).1 = .ok () ∧ onlyFoldersI (ensureFolderExists v p).2 ∧
      onlyFoldersD (ensureFolderExists v p).2 := by
  rw [ensureFolderExists]
  by_cases hc : normalizeVaultPath p = []
  · rw [if_pos hc]; exact ⟨rfl, hI, hD⟩
  · rw [if_neg hc]
    exact ensureGo_onlyFolders _ v [] hI hD

/-- C4: when the OCR result's pages collection is missing or empty, the
conversion (started against a fresh vault, with an API key present and the
upstream phase succeeding) fails with the no-pages error, and no document
file is ever created: everything recorded in either vault view by the run
is a folder. -/
theorem c4_malformed_result (env : Env)
    (smd simg sname skey pdfBaseName : Str) (ocr : OcrResult)
    (hocr : env.ocrOutcome = .ok ocr)
    (hpages : ocr.pages = none ∨ ocr.pages = some [])
    (hkey : trimWs skey ≠ []) :
    (processPDFInternal env smd simg sname skey pdfBaseName ⟨[], []⟩).outcome =
      .error "OCR result does not contain pages.".data ∧
    (∀ p e, alookup (processPDFInternal env smd simg sname skey pdfBaseName
      ⟨[], []⟩).vault.index p = some e → e = VEntry.folder) ∧
    (∀ p e, alookup (processPDFInternal env smd simg sname skey pdfBaseName
      ⟨[], []⟩).vault.disk p = some e → e = DiskEntry.folder) := by
  have hI0 : onlyFoldersI ⟨[], []⟩ := by
    intro p e hp; rw [alookup] at hp; exact absurd hp (by simp)
  have hD0 : onlyFoldersD ⟨[], []⟩ := by
    intro p e hp; rw [alookup] at hp; exact absurd hp (by simp)
  rw [processPDFInternal]
  rw [if_neg (by rw [Vault.getAbstractFileByPath, Vault.adapterExists, alookup, alookup]; simp)]
  rw [if_neg hkey]
  rw [hocr]
  have hstep1 : ((if normalizeVaultPath smd ≠ [] then
      ensureFolderExists ⟨[], []⟩ (normalizeVaultPath smd)
      else (.ok (), ⟨[], []⟩)) : Except Str Unit × Vault).1 = .ok () ∧
      onlyFoldersI ((if normalizeVaultPath smd ≠ [] then
        ensureFolderExists ⟨[], []⟩ (normalizeVaultPath smd)
        else (.ok (), ⟨[], []⟩)) : Except Str Unit × Vault).2 ∧
      onlyFoldersD ((if normalizeVaultPath smd ≠ [] then
        ensureFolderExists ⟨[], []⟩ (normalizeVaultPath smd)
        else (.ok (), ⟨[], []⟩)) : Except Str Unit × Vault).2 := by
    by_cases hmd : normalizeVaultPath smd ≠ []
    · rw [if_pos hmd]; exact ensureFolderExists_onlyFolders hI0 hD0 _
    · rw [if_neg hmd]; exact ⟨rfl, hI0, hD0⟩
  rcases h1 : ((if normalizeVaultPath smd ≠ [] then
      ensureFolderExists ⟨[], []⟩ (normalizeVaultPath smd)
      else (.ok (), ⟨[], []⟩)) : Except Str Unit × Vault) with ⟨r1, v1⟩
  rw [h1] at hstep1
  obtain ⟨hr1, hI1, hD1⟩ := hstep1
  simp only at hr1 hI1 hD1
  subst hr1
  have hstep2 := ensureFolderExists_onlyFolders hI1 hD1 (finalImagesPathOf simg sname)
  rcases h2 : ensureFolderExists v1 (finalImagesPathOf simg sname) with ⟨r2, v2⟩
  rw [h2] at hstep2
  obtain ⟨hr2, hI2, hD2⟩ := hstep2
  simp only at hr2 hI2 hD2
  subst hr2
  dsimp only
  rw [h2]
  obtain ⟨pg⟩ := ocr
  rcases hpages with hpg | hpg
  · obtain rfl : pg = none := hpg
    exact ⟨rfl, hI2, hD2⟩
  · obtain rfl : pg = some [] := hpg
    exact ⟨rfl, hI2, hD2⟩

theorem c4_witness :
    (processPDFInternal ⟨fun _ => false, .ok ⟨some []⟩⟩ "out".data [] [] "k".data "doc".data
      ⟨[], []⟩).outcome = .error "OCR result does not contain pages.".data ∧
    (∀ p e, alookup (processPDFInternal ⟨fun _ => false, .ok ⟨some []⟩⟩ "out".data [] [] "k".data
      "doc".data ⟨[], []⟩).vault.index p = some e → e = VEntry.folder) ∧
    (∀ p e, alookup (processPDFInternal ⟨fun _ => false, .ok ⟨some []⟩⟩ "out".data [] [] "k".data
      "doc".data ⟨[], []⟩).vault.disk p = some e → e = DiskEntry.folder) :=
  c4_malformed_result ⟨fun _ => false, .ok ⟨some []⟩⟩ "out".data [] [] "k".data "doc".data
    ⟨some []⟩ rfl (Or.inr rfl) (by decide)

/-! ## C8: folder-ensure idempotence, race tolerance, path conflicts -/

/-- The cumulative segment paths the loop of `ensureFolderExists` visits. -/
def cumPaths (current : Str) : List Str → List Str
  | [] => []
  | part :: rest => joinSeg current part :: cumPaths (joinSeg current part) rest

/-- The segment paths visited when ensuring `p`. -/
def segPaths (p : Str) : List Str :=
  cumPaths [] ((splitSlash (normalizeVaultPath p)).filter (fun q => q ≠ []))

theorem joinSeg_length {cur part : Str} (h : part ≠ []) :
    cur.length < (joinSeg cur part).length := by
  rw [joinSeg]
  by_cases hc : cur = []
  · rw [if_pos hc]
    subst hc
    cases part with
    | nil => exact absurd rfl h
    | cons c cs => simp
  · rw [if_neg hc]
    simp

theorem cumPaths_length : ∀ (parts : List Str) (cur : Str), (∀ q ∈ parts, q ≠ []) →
    ∀ s ∈ cumPaths cur parts, cur.length < s.length := by
  intro parts
  induction parts with
  | nil => intro cur _ s hs; simp [cumPaths] at hs
  | cons part rest ih =>
    intro cur h s hs
    rw [cumPaths] at hs
    rcases List.mem_cons.mp hs with hs | hs
    · subst hs
      exact joinSeg_length (h part (by simp))
    · exact lt_trans (joinSeg_length (h part (by simp)))
        (ih (joinSeg cur part) (fun q hq => h q (by simp [hq])) s hs)

theorem ensureGo_mono : ∀ (parts : List Str) (v : Vault) (cur : Str) (x : Str),
    (alookup (ensureGo v cur parts).2.index x = alookup v.index x ∨
      alookup (ensureGo v cur parts).2.index x = some VEntry.folder) ∧
    (alookup (ensureGo v cur parts).2.disk x = alookup v.disk x ∨
      alookup (ensureGo v cur parts).2.disk x = some DiskEntry.folder) := by
  intro parts
  induction parts with
  | nil => intro v cur x; exact ⟨Or.inl rfl, Or.inl rfl⟩
  | cons part rest ih =>
    intro v cur x
    rw [ensureGo]
    simp only
    rcases hlook : v.getAbstractFileByPath (joinSeg cur part) with - | e
    · rw [Vault.createFolder]
      by_cases hex : ((alookup v.index (joinSeg cur part)).isSome ||
          (alookup v.disk (joinSeg cur part)).isSome) = true
      · rw [if_pos hex]
        simp only
        rw [if_pos (by decide)]
        exact ih v (joinSeg cur part) x
      · rw [if_neg hex]
        simp only
        rcases ih ⟨(joinSeg cur part, VEntry.folder) :: v.index,
            (joinSeg cur part, DiskEntry.folder) :: v.disk⟩ (joinSeg cur part) x with ⟨hi, hd⟩
        constructor
        · rcases hi with hi | hi
          · rw [hi]
            simp only [alookup]
            by_cases hx : joinSeg cur part = x
            · rw [if_pos hx]; exact Or.inr rfl
            · rw [if_neg hx]; exact Or.inl rfl
          · exact Or.inr hi
        · rcases hd with hd | hd
          · rw [hd]
            simp only [alookup]
            by_cases hx : joinSeg cur part = x
            · rw [if_pos hx]; exact Or.inr rfl
            · rw [if_neg hx]; exact Or.inl rfl
          · exact Or.inr hd
    · cases e with
      | file => exact ⟨Or.inl rfl, Or.inl rfl⟩
      | folder => exact ih v (joinSeg cur part) x

theorem ensureGo_idem : ∀ (parts : List Str) (v v1 : Vault) (cur : Str),
    ensureGo v cur parts = (.ok (), v1) → ensureGo v1 cur parts = (.ok (), v1) := by
  intro parts
  induction parts with
  | nil =>
    intro v v1 cur h
    rw [ensureGo] at h
    obtain rfl : v = v1 := congrArg Prod.snd h
    rfl
  | cons part rest ih =>
    intro v v1 cur h
    rw [ensureGo] at h ⊢
    simp only at h ⊢
    rcases hlook : v.getAbstractFileByPath (joinSeg cur part) with - | e
    · rw [hlook] at h
      dsimp only at h
      rw [Vault.createFolder] at h
      by_cases hex : ((alookup v.index (joinSeg cur part)).isSome ||
          (alookup v.disk (joinSeg cur part)).isSome) = true
      · rw [if_pos hex] at h
        simp only at h
        rw [if_pos (by decide)] at h
        have hdisk : (alookup v.disk (joinSeg cur part)).isSome = true := by
          rw [Vault.getAbstractFileByPath] at hlook
          rw [hlook] at hex
          simpa using hex
        have hv1 : (ensureGo v (joinSeg cur part) rest).2 = v1 := by rw [h]
        have hmono := ensureGo_mono rest v (joinSeg cur part) (joinSeg cur part)
        rw [hv1] at hmono
        rcases hmono.1 with hm | hm
        · -- index lookup unchanged: still none
          rw [Vault.getAbstractFileByPath] at hlook
          rw [hlook] at hm
          rw [show v1.getAbstractFileByPath (joinSeg cur part) = none from hm]
          rw [Vault.createFolder]
          have hex2 : ((alookup v1.index (joinSeg cur part)).isSome ||
              (alookup v1.disk (joinSeg cur part)).isSome) = true := by
            rcases hmono.2 with hd | hd
            · rw [hd]
              simp only [Bool.or_eq_true]
              exact Or.inr hdisk
            · rw [hd]
              simp
          rw [if_pos hex2]
          simp only
          rw [if_pos (by decide)]
          exact ih v v1 (joinSeg cur part) h
        · rw [show v1.getAbstractFileByPath (joinSeg cur part) = some VEntry.folder from hm]
          exact ih v v1 (joinSeg cur part) h
      · rw [if_neg hex] at h
        simp only at h
        have hv1 : (ensureGo ⟨(joinSeg cur part, VEntry.folder) :: v.index,
            (joinSeg cur part, DiskEntry.folder) :: v.disk⟩ (joinSeg cur part) rest).2 = v1 := by
          rw [h]
        have hmono := ensureGo_mono rest ⟨(joinSeg cur part, VEntry.folder) :: v.index,
            (joinSeg cur part, DiskEntry.folder) :: v.disk⟩ (joinSeg cur part) (joinSeg cur part)
        rw [hv1] at hmono
        have hfold : v1.getAbstractFileByPath (joinSeg cur part) = some VEntry.folder := by
          rcases hmono.1 with hm | hm
          · rw [Vault.getAbstractFileByPath, hm]
            simp [alookup]
          · exact hm
        rw [hfold]
        exact ih _ v1 (joinSeg cur part) h
    · rw [hlook] at h
      cases e with
      | file =>
        dsimp only at h
        exact absurd h (by simp)
      | folder =>
        dsimp only at h
        have hv1 : (ensureGo v (joinSeg cur part) rest).2 = v1 := by rw [h]
        have hmono := ensureGo_mono rest v (joinSeg cur part) (joinSeg cur part)
        rw [hv1] at hmono
        have hfold : v1.getAbstractFileByPath (joinSeg cur part) = some VEntry.folder := by
          rcases hmono.1 with hm | hm
          · rw [Vault.getAbstractFileByPath, hm]
            exact hlook
          · exact hm
        rw [hfold]
        exact ih v v1 (joinSeg cur part) h

theorem alookup_cons_ne {α : Type} {k : Str} {e : α} {L : List (Str × α)} {s : Str}
    (h : k ≠ s) : alookup ((k, e) :: L) s = alookup L s := by
  rw [alookup, if_neg h]

theorem ensureGo_ok_of_noFile : ∀ (parts : List Str) (v : Vault) (cur : Str),
    (∀ q ∈ parts, q ≠ []) →
    (∀ s ∈ cumPaths cur parts, v.getAbstractFileByPath s ≠ some VEntry.file) →
    (ensureGo v cur parts).1 = .ok () := by
  intro parts
  induction parts with
  | nil => intro v cur _ _; rfl
  | cons part rest ih =>
    intro v cur hq hnf
    rw [ensureGo]
    simp only
    rcases hlook : v.getAbstractFileByPath (joinSeg cur part) with - | e
    · rw [Vault.createFolder]
      by_cases hex : ((alookup v.index (joinSeg cur part)).isSome ||
          (alookup v.disk (joinSeg cur part)).isSome) = true
      · rw [if_pos hex]
        simp only
        rw [if_pos (by decide)]
        exact ih v (joinSeg cur part) (fun q hq2 => hq q (by simp [hq2]))
          (fun s hs => hnf s (by rw [cumPaths]; simp [hs]))
      · rw [if_neg hex]
        simp only
        refine ih _ (joinSeg cur part) (fun q hq2 => hq q (by simp [hq2])) ?_
        intro s hs
        have hne : joinSeg cur part ≠ s := by
          intro heq
          have := cumPaths_length rest (joinSeg cur part)
            (fun q hq2 => hq q (by simp [hq2])) s hs
          rw [heq] at this
          omega
        rw [Vault.getAbstractFileByPath]
        simp only
        rw [alookup_cons_ne hne]
        exact hnf s (by rw [cumPaths]; simp [hs])
    · cases e with
      | file => exact absurd hlook (hnf (joinSeg cur part) (by rw [cumPaths]; simp))
      | folder =>
        exact ih v (joinSeg cur part) (fun q hq2 => hq q (by simp [hq2]))
          (fun s hs => hnf s (by rw [cumPaths]; simp [hs]))

theorem ensureGo_conflict : ∀ (parts : List Str) (v : Vault) (cur : Str),
    (∀ q ∈ parts, q ≠ []) →
    (∃ s ∈ cumPaths cur parts, v.getAbstractFileByPath s = some VEntry.file) →
    ∃ s2 ∈ cumPaths cur parts, (ensureGo v cur parts).1 =
      .error ("Cannot create folder because a file exists at \"".data ++ s2 ++ "\"".data) := by
  intro parts
  induction parts with
  | nil => intro v cur _ hex; simp [cumPaths] at hex
  | cons part rest ih =>
    intro v cur hq hex
    rw [ensureGo]
    simp only
    rcases hlook : v.getAbstractFileByPath (joinSeg cur part) with - | e
    · obtain ⟨s, hs, hsf⟩ := hex
      rw [cumPaths] at hs
      rcases List.mem_cons.mp hs with hs | hs
      · subst hs
        exact absurd hsf (by rw [hlook]; simp)
      · rw [Vault.createFolder]
        by_cases hcex : ((alookup v.index (joinSeg cur part)).isSome ||
            (alookup v.disk (joinSeg cur part)).isSome) = true
        · rw [if_pos hcex]
          simp only
          rw [if_pos (by decide)]
          obtain ⟨s2, hs2, hres⟩ := ih v (joinSeg cur part)
            (fun q hq2 => hq q (by simp [hq2])) ⟨s, hs, hsf⟩
          exact ⟨s2, by rw [cumPaths]; simp [hs2], hres⟩
        · rw [if_neg hcex]
          simp only
          have hne : joinSeg cur part ≠ s := by
            intro heq
            have := cumPaths_length rest (joinSeg cur part)
              (fun q hq2 => hq q (by simp [hq2])) s hs
            rw [heq] at this
            omega
          have hsf2 : (Vault.mk ((joinSeg cur part, VEntry.folder) :: v.index)
              ((joinSeg cur part, DiskEntry.folder) :: v.disk)).getAbstractFileByPath s =
              some VEntry.file := by
            rw [Vault.getAbstractFileByPath]
            simp only
            rw [alookup_cons_ne hne]
            exact hsf
          obtain ⟨s2, hs2, hres⟩ := ih _ (joinSeg cur part)
            (fun q hq2 => hq q (by simp [hq2])) ⟨s, hs, hsf2⟩
          exact ⟨s2, by rw [cumPaths]; simp [hs2], hres⟩
    · cases e with
      | file =>
        exact ⟨joinSeg cur part, by rw [cumPaths]; simp, rfl⟩
      | folder =>
        obtain ⟨s, hs, hsf⟩ := hex
        rw [cumPaths] at hs
        rcases List.mem_cons.mp hs with hs | hs
        · subst hs
          rw [hlook] at hsf
          exact absurd hsf (by simp)
        · obtain ⟨s2, hs2, hres⟩ := ih v (joinSeg cur part)
            (fun q hq2 => hq q (by simp [hq2])) ⟨s, hs, hsf⟩
          exact ⟨s2, by rw [cumPaths]; simp [hs2], hres⟩

theorem cumPaths_nodup : ∀ (parts : List Str) (cur : Str), (∀ q ∈ parts, q ≠ []) →
    (cumPaths cur parts).Nodup := by
  intro parts
  induction parts with
  | nil => intro cur _; simp [cumPaths]
  | cons part rest ih =>
    intro cur hq
    rw [cumPaths]
    refine List.nodup_cons.mpr ⟨?_, ih (joinSeg cur part) (fun q hq2 => hq q (by simp [hq2]))⟩
    intro hmem
    have := cumPaths_length rest (joinSeg cur part)
      (fun q hq2 => hq q (by simp [hq2])) _ hmem
    omega

theorem ensureGo_fresh : ∀ (parts : List Str) (v : Vault) (cur : Str),
    (∀ q ∈ parts, q ≠ []) →
    (∀ s ∈ cumPaths cur parts, alookup v.index s = none ∧ alookup v.disk s = none) →
    ensureGo v cur parts = (.ok (),
      ⟨(cumPaths cur parts).reverse.map (fun s => (s, VEntry.folder)) ++ v.index,
       (cumPaths cur parts).reverse.map (fun s => (s, DiskEntry.folder)) ++ v.disk⟩) := by
  intro parts
  induction parts with
  | nil =>
    intro v cur _ _
    rw [ensureGo, cumPaths]
    simp
  | cons part rest ih =>
    intro v cur hq hfresh
    rw [ensureGo]
    simp only
    have hhead := hfresh (joinSeg cur part) (by rw [cumPaths]; simp)
    have hlook : v.getAbstractFileByPath (joinSeg cur part) = none := by
      rw [Vault.getAbstractFileByPath]; exact hhead.1
    rw [hlook]
    rw [Vault.createFolder]
    rw [if_neg (by simp [hhead.1, hhead.2])]
    simp only
    have hfresh2 : ∀ s ∈ cumPaths (joinSeg cur part) rest,
        alookup ((joinSeg cur part, VEntry.folder) :: v.index) s = none ∧
        alookup ((joinSeg cur part, DiskEntry.folder) :: v.disk) s = none := by
      intro s hs
      have hne : joinSeg cur part ≠ s := by
        intro heq
        have := cumPaths_length rest (joinSeg cur part)
          (fun q hq2 => hq q (by simp [hq2])) s hs
        rw [heq] at this
        omega
      rw [alookup_cons_ne hne, alookup_cons_ne hne]
      exact hfresh s (by rw [cumPaths]; simp [hs])
    rw [ih _ (joinSeg cur part) (fun q hq2 => hq q (by simp [hq2])) hfresh2]
    rw [cumPaths]
    simp [List.append_assoc]

theorem alookup_map_const {α : Type} (e0 : α) :
    ∀ (paths : List Str) (s : Str), s ∈ paths →
    alookup (paths.map (fun t => (t, e0))) s = some e0 := by
  intro paths
  induction paths with
  | nil => intro s hs; simp at hs
  | cons t rest ih =>
    intro s hs
    rw [List.map_cons, alookup]
    by_cases ht : t = s
    · rw [if_pos ht]
    · rw [if_neg ht]
      have hs2 : s ∈ rest := by
        rcases List.mem_cons.mp hs with h | h
        · exact absurd h.symm ht
        · exact h
      exact ih s hs2

theorem alookup_append {α : Type} : ∀ (A B : List (Str × α)) (s : Str),
    alookup (A ++ B) s = match alookup A s with
      | some e => some e
      | none => alookup B s := by
  intro A
  induction A with
  | nil => intro B s; rfl
  | cons a rest ih =>
    intro B s
    rw [List.cons_append, alookup, alookup]
    by_cases ha : a.1 = s
    · rcases a with ⟨k, e⟩
      rw [if_pos ha, if_pos ha]
    · rcases a with ⟨k, e⟩
      rw [if_neg ha, if_neg ha]
      exact ih B s

theorem countP_zero_of_not_mem {α : Type} (e0 : α) :
    ∀ (paths : List Str) (s : Str), s ∉ paths →
    (paths.map (fun t => (t, e0))).countP (fun e => decide (e.1 = s)) = 0 := by
  intro paths
  induction paths with
  | nil => intro s _; rfl
  | cons t rest ih =>
    intro s hs
    rw [List.map_cons, List.countP_cons]
    have ht : t ≠ s := fun h => hs (by simp [h])
    simp only [ht, decide_eq_true_eq, if_neg]
    rw [ih s (fun h => hs (by simp [h]))]
    simp [ht]

theorem countP_one_of_nodup_mem {α : Type} (e0 : α) :
    ∀ (paths : List Str) (s : Str), paths.Nodup → s ∈ paths →
    (paths.map (fun t => (t, e0))).countP (fun e => decide (e.1 = s)) = 1 := by
  intro paths
  induction paths with
  | nil => intro s _ hs; simp at hs
  | cons t rest ih =>
    intro s hnd hs
    rw [List.map_cons, List.countP_cons]
    rcases List.nodup_cons.mp hnd with ⟨hnot, hnd2⟩
    by_cases ht : t = s
    · subst ht
      rw [countP_zero_of_not_mem e0 rest t hnot]
      simp
    · have hs2 : s ∈ rest := by
        rcases List.mem_cons.mp hs with h | h
        · exact absurd h.symm ht
        · exact h
      rw [ih s hnd2 hs2]
      simp [ht]

/-- C8: the folder-ensure operation is (i) idempotent — after a successful
run, running it again succeeds and changes nothing; (ii) race-tolerant —
whenever no visited segment is occupied by a file in the indexed view it
succeeds, in particular when a concurrent creator made the folder appear on
disk only, the resulting "already exists" error from the create call is
treated as success; (iii) a segment occupied by a non-folder entity makes
it fail with the path-conflict error; and (iv) on entirely fresh paths each
visited segment ends up with exactly one folder entry in the index. -/
theorem c8_ensure_folder :
    (∀ (v v1 : Vault) (p : Str), ensureFolderExists v p = (.ok (), v1) →
      ensureFolderExists v1 p = (.ok (), v1)) ∧
    (∀ (v : Vault) (p : Str),
      (∀ s ∈ segPaths p, v.getAbstractFileByPath s ≠ some VEntry.file) →
      (ensureFolderExists v p).1 = .ok ()) ∧
    (∀ (v : Vault) (p : Str),
      (∃ s ∈ segPaths p, v.getAbstractFileByPath s = some VEntry.file) →
      ∃ s2 ∈ segPaths p, (ensureFolderExists v p).1 =
        .error ("Cannot create folder because a file exists at \"".data ++ s2 ++ "\"".data)) ∧
    (∀ (v : Vault) (p : Str) (s : Str), s ∈ segPaths p →
      (∀ t ∈ segPaths p, alookup v.index t = none ∧ alookup v.disk t = none) →
      (ensureFolderExists v p).2.index.countP (fun e => decide (e.1 = s)) = 1 ∧
        alookup (ensureFolderExists v p).2.index s = some VEntry.folder) := by
  refine ⟨?_, ?_, ?_, ?_⟩
  · intro v v1 p h
    rw [ensureFolderExists] at h ⊢
    by_cases hc : normalizeVaultPath p = []
    · rw [if_pos hc] at h
      obtain rfl : v = v1 := congrArg Prod.snd h
      rw [if_pos hc]
    · rw [if_neg hc] at h ⊢
      exact ensureGo_idem _ v v1 [] h
  · intro v p hnf
    rw [ensureFolderExists]
    by_cases hc : normalizeVaultPath p = []
    · rw [if_pos hc]
    · rw [if_neg hc]
      refine ensureGo_ok_of_noFile _ v [] ?_ ?_
      · intro q hq
        simpa using (List.mem_filter.mp hq).2
      · rw [segPaths] at hnf
        exact hnf
  · intro v p hex
    rw [ensureFolderExists]
    by_cases hc : normalizeVaultPath p = []
    · exfalso
      obtain ⟨s, hs, _⟩ := hex
      rw [segPaths, hc] at hs
      simp [splitSlash, cumPaths] at hs
    · rw [if_neg hc]
      rw [segPaths] at hex ⊢
      exact ensureGo_conflict _ v []
        (fun q hq => by simpa using (List.mem_filter.mp hq).2) hex
  · intro v p s hs hfresh
    rw [ensureFolderExists]
    by_cases hc : normalizeVaultPath p = []
    · exfalso
      rw [segPaths, hc] at hs
      simp [splitSlash, cumPaths] at hs
    · rw [if_neg hc]
      rw [segPaths] at hs hfresh
      have hqne : ∀ q ∈ (splitSlash (normalizeVaultPath p)).filter (fun q => q ≠ []), q ≠ [] :=
        fun q hq => by simpa using (List.mem_filter.mp hq).2
      rw [ensureGo_fresh _ v [] hqne hfresh]
      have hnd := List.nodup_reverse.mpr (cumPaths_nodup
        ((splitSlash (normalizeVaultPath p)).filter (fun q => q ≠ [])) [] hqne)
      have hmem : s ∈ (cumPaths [] ((splitSlash (normalizeVaultPath p)).filter
          (fun q => q ≠ []))).reverse := List.mem_reverse.mpr hs
      constructor
      · simp only
        rw [List.countP_append]
        rw [countP_one_of_nodup_mem VEntry.folder _ s hnd hmem]
        rw [alookup_none_countP (hfresh s hs).1]
      · simp only
        rw [alookup_append]
        rw [alookup_map_const VEntry.folder _ s hmem]

theorem c8_witness :
    ensureFolderExists ⟨[("a".data, VEntry.folder)], [("a".data, DiskEntry.folder)]⟩ "a".data =
      (.ok (), ⟨[("a".data, VEntry.folder)], [("a".data, DiskEntry.folder)]⟩) :=
  c8_ensure_folder.1 ⟨[], []⟩ ⟨[("a".data, VEntry.folder)], [("a".data, DiskEntry.folder)]⟩
    "a".data (by decide)

/-! ## C10: idempotence of the filename sanitizer -/

/-- Whitespace-normal form: every `\s` character is an ASCII space and is
never immediately followed by another `\s` character. -/
def wsNormed : Str → Bool
  | [] => true
  | [c] => !(isJsSpace c) || decide (c = ' ')
  | c :: c2 :: cs =>
    (!(isJsSpace c) || (decide (c = ' ') && !(isJsSpace c2))) && wsNormed (c2 :: cs)

theorem collapseWs_chars : ∀ {l : Str} {c : Char}, c ∈ collapseWs l → c = ' ' ∨ c ∈ l := by
  intro l
  induction l with
  | nil => intro c hc; simp [collapseWs] at hc
  | cons a cs ih =>
    intro c hc
    rcases hcs : cs with - | ⟨a2, cs2⟩
    · subst hcs
      rw [collapseWs] at hc
      by_cases ha : isJsSpace a = true
      · rw [if_pos ha] at hc
        simp at hc
        exact Or.inl hc
      · rw [if_neg ha] at hc
        simp at hc
        exact Or.inr (by simp [hc])
    · subst hcs
      rw [collapseWs] at hc
      by_cases ha : isJsSpace a = true
      · rw [if_pos ha] at hc
        by_cases ha2 : isJsSpace a2 = true
        · rw [if_pos ha2] at hc
          rcases ih hc with h | h
          · exact Or.inl h
          · exact Or.inr (by simp [h])
        · rw [if_neg ha2] at hc
          rcases List.mem_cons.mp hc with h | h
          · exact Or.inl h
          · rcases ih h with h2 | h2
            · exact Or.inl h2
            · exact Or.inr (by simp [h2])
      · rw [if_neg ha] at hc
        rcases List.mem_cons.mp hc with h | h
        · exact Or.inr (by simp [h])
        · rcases ih h with h2 | h2
          · exact Or.inl h2
          · exact Or.inr (by simp [h2])

theorem wsNormed_cons {a : Char} {cs : Str} :
    wsNormed (a :: cs) = ((!(isJsSpace a) || (decide (a = ' ') &&
      (match cs with | [] => true | c2 :: _ => !(isJsSpace c2)))) && wsNormed cs) := by
  rcases cs with - | ⟨c2, cs2⟩
  · rw [wsNormed]
    simp [wsNormed]
  · rw [wsNormed]

theorem wsNormed_collapse : ∀ l : Str, wsNormed (collapseWs l) = true := by
  intro l
  induction l with
  | nil => rfl
  | cons a cs ih =>
    rcases hcs : cs with - | ⟨a2, cs2⟩
    · subst hcs
      rw [collapseWs]
      by_cases ha : isJsSpace a = true
      · rw [if_pos ha]; rfl
      · rw [if_neg ha]
        rw [wsNormed_cons]
        simp [ha, wsNormed]
    · subst hcs
      rw [collapseWs]
      by_cases ha : isJsSpace a = true
      · rw [if_pos ha]
        by_cases ha2 : isJsSpace a2 = true
        · rw [if_pos ha2]
          exact ih
        · rw [if_neg ha2]
          rw [collapseWs_cons_nonspace (by simpa using ha2)]
          rw [wsNormed_cons]
          simp only [Bool.and_eq_true]
          refine ⟨by simp [ha2], ?_⟩
          have h2 := ih
          rw [collapseWs_cons_nonspace (by simpa using ha2)] at h2
          exact h2
      · rw [if_neg ha]
        rw [wsNormed_cons]
        simp only [Bool.and_eq_true]
        refine ⟨by simp [ha], ih⟩

theorem wsNormed_tail {a : Char} {cs : Str} (h : wsNormed (a :: cs) = true) :
    wsNormed cs = true := by
  rw [wsNormed_cons, Bool.and_eq_true] at h
  exact h.2

theorem collapseWs_of_wsNormed : ∀ {l : Str}, wsNormed l = true → collapseWs l = l := by
  intro l
  induction l with
  | nil => intro _; rfl
  | cons a cs ih =>
    intro h
    have hh := h
    rw [wsNormed_cons, Bool.and_eq_true] at hh
    rcases hcs : cs with - | ⟨a2, cs2⟩
    · subst hcs
      rw [collapseWs]
      by_cases ha : isJsSpace a = true
      · rw [if_pos ha]
        have haeq : a = ' ' := by
          have h1 := hh.1
          simp [ha] at h1
          exact h1
        rw [haeq]
      · rw [if_neg ha]
    · subst hcs
      rw [collapseWs]
      by_cases ha : isJsSpace a = true
      · rw [if_pos ha]
        have hcond : a = ' ' ∧ isJsSpace a2 = false := by
          rcases hh.1 with h1
          simp [ha] at h1
          exact h1
        rw [if_neg (by simp [hcond.2])]
        rw [ih hh.2, hcond.1]
      · rw [if_neg ha]
        rw [ih hh.2]

theorem wsNormed_dropWhile (p : Char → Bool) : ∀ {l : Str}, wsNormed l = true →
    wsNormed (l.dropWhile p) = true := by
  intro l
  induction l with
  | nil => intro _; rfl
  | cons a cs ih =>
    intro h
    rw [List.dropWhile]
    by_cases ha : p a = true
    · rw [ha]
      exact ih (wsNormed_tail h)
    · rw [Bool.not_eq_true] at ha
      rw [ha]
      exact h

theorem wsNormed_append_left : ∀ (l1 l2 : Str), wsNormed (l1 ++ l2) = true →
    wsNormed l1 = true := by
  intro l1
  induction l1 with
  | nil => intro l2 _; rfl
  | cons a cs ih =>
    intro l2 h
    rw [List.cons_append, wsNormed_cons, Bool.and_eq_true] at h
    rw [wsNormed_cons, Bool.and_eq_true]
    refine ⟨?_, ih l2 h.2⟩
    rcases hcs : cs with - | ⟨a2, cs2⟩
    · subst hcs
      have h1 := h.1
      by_cases ha : isJsSpace a = true
      · simp [ha] at h1 ⊢
        exact h1.1
      · simp [ha]
    · have h1 := h.1
      rw [hcs] at h1
      rw [List.cons_append] at h1
      exact h1

theorem wsNormed_mem_space : ∀ {l : Str} {c : Char}, wsNormed l = true → c ∈ l →
    isJsSpace c = true → c = ' ' := by
  intro l
  induction l with
  | nil => intro c _ hc; simp at hc
  | cons a cs ih =>
    intro c h hc hs
    rcases List.mem_cons.mp hc with h2 | h2
    · subst h2
      rw [wsNormed_cons, Bool.and_eq_true] at h
      have := h.1
      simp [hs] at this
      exact this.1
    · exact ih (wsNormed_tail h) h2 hs

/-- Splitting a list at its trailing run: the back-dropped part is a prefix. -/
theorem backDrop_decomp (p : Char → Bool) (X : Str) :
    (X.reverse.dropWhile p).reverse ++ (X.reverse.takeWhile p).reverse = X := by
  rw [← List.reverse_append, List.takeWhile_append_dropWhile, List.reverse_reverse]

theorem sanChar_not_bad (c : Char) : isSanBad (sanChar c) = false := by
  rw [sanChar]
  by_cases h : isSanBad c = true
  · rw [if_pos h]
    decide
  · rw [Bool.not_eq_true] at h
    rw [if_neg (by simp [h])]
    exact h

theorem dropWhile_cons_false {p : Char → Bool} {a : Char} {cs : Str} (h : p a = false) :
    (a :: cs).dropWhile p = a :: cs := by
  simp [List.dropWhile, h]

/-- C10: the filename sanitizer is idempotent — one pass leaves no reserved
or control character, no non-space whitespace, no doubled space, no leading
or trailing whitespace and no trailing dot or space, so a second pass
returns its input unchanged. -/
theorem c10_sanitize_idempotent (s : Str) :
    sanitizeFileName (sanitizeFileName s) = sanitizeFileName s := by
  have hodef : sanitizeFileName s = ((trimWs (collapseWs (s.map sanChar))).reverse.dropWhile
      (fun c => c = '.' || c = ' ')).reverse := rfl
  -- characters of the first pass's output are never reserved
  have hCXchars : ∀ c ∈ collapseWs (s.map sanChar), isSanBad c = false := by
    intro c hc
    rcases collapseWs_chars hc with h | h
    · subst h; decide
    · obtain ⟨d, _, rfl⟩ := List.mem_map.mp h
      exact sanChar_not_bad d
  have hwCX := wsNormed_collapse (s.map sanChar)
  have hwF := wsNormed_dropWhile isJsSpace hwCX
  have hdec1 := backDrop_decomp isJsSpace ((collapseWs (s.map sanChar)).dropWhile isJsSpace)
  have hwT : wsNormed (trimWs (collapseWs (s.map sanChar))) = true := by
    refine wsNormed_append_left (trimWs (collapseWs (s.map sanChar)))
      ((((collapseWs (s.map sanChar)).dropWhile
        isJsSpace).reverse.takeWhile isJsSpace).reverse) ?_
    rw [trimWs, hdec1]
    exact hwF
  have hdec2 := backDrop_decomp (fun c => c = '.' || c = ' ')
    (trimWs (collapseWs (s.map sanChar)))
  have hwo : wsNormed (sanitizeFileName s) = true := by
    refine wsNormed_append_left (sanitizeFileName s)
      (((trimWs (collapseWs (s.map sanChar))).reverse.takeWhile
        (fun c => c = '.' || c = ' ')).reverse) ?_
    rw [hodef, hdec2]
    exact hwT
  have hmemT : ∀ c ∈ sanitizeFileName s, c ∈ trimWs (collapseWs (s.map sanChar)) := by
    intro c hc
    rw [← hdec2]
    exact List.mem_append_left _ (hodef ▸ hc)
  have hmemCX : ∀ c ∈ sanitizeFileName s, c ∈ collapseWs (s.map sanChar) := by
    intro c hc
    have h1 : c ∈ (collapseWs (s.map sanChar)).dropWhile isJsSpace := by
      rw [← hdec1]
      refine List.mem_append_left _ ?_
      rw [trimWs] at hmemT
      exact hmemT c hc
    exact (List.dropWhile_sublist isJsSpace).subset h1
  have hochars : ∀ c ∈ sanitizeFileName s, isSanBad c = false :=
    fun c hc => hCXchars c (hmemCX c hc)
  -- the output's reverse is exactly the dot/space back-drop of T's reverse
  have horev : (sanitizeFileName s).reverse = (trimWs (collapseWs (s.map sanChar))).reverse.dropWhile
      (fun c => c = '.' || c = ' ') := by
    rw [hodef, List.reverse_reverse]
  -- head of the output is not whitespace
  have hfront : (sanitizeFileName s).dropWhile isJsSpace = sanitizeFileName s := by
    rcases ho : sanitizeFileName s with - | ⟨c, cs⟩
    · rfl
    · have ho2 : ((trimWs (collapseWs (s.map sanChar))).reverse.dropWhile
          (fun c => c = '.' || c = ' ')).reverse = c :: cs := by
        rw [← hodef, ho]
      have hT : trimWs (collapseWs (s.map sanChar)) = c :: (cs ++
          ((trimWs (collapseWs (s.map sanChar))).reverse.takeWhile
            (fun c => c = '.' || c = ' ')).reverse) := by
        conv_lhs => rw [← hdec2, ho2]
        rfl
      have hdec1T : trimWs (collapseWs (s.map sanChar)) ++
          (((collapseWs (s.map sanChar)).dropWhile isJsSpace).reverse.takeWhile
            isJsSpace).reverse = (collapseWs (s.map sanChar)).dropWhile isJsSpace := by
        rw [trimWs]
        exact hdec1
      have hF : (collapseWs (s.map sanChar)).dropWhile isJsSpace = c :: ((cs ++
          ((trimWs (collapseWs (s.map sanChar))).reverse.takeWhile
            (fun c => c = '.' || c = ' ')).reverse) ++
          (((collapseWs (s.map sanChar)).dropWhile isJsSpace).reverse.takeWhile
            isJsSpace).reverse) := by
        conv_lhs => rw [← hdec1T, hT]
        simp
      have hc := dropWhile_head_false hF
      exact dropWhile_cons_false hc
  -- last character of the output is neither a dot, a space, nor whitespace
  have hback : (sanitizeFileName s).reverse.dropWhile isJsSpace =
      (sanitizeFileName s).reverse := by
    rcases hrev : (sanitizeFileName s).reverse with - | ⟨d, ds⟩
    · rfl
    · have hdd : (trimWs (collapseWs (s.map sanChar))).reverse.dropWhile
          (fun c => c = '.' || c = ' ') = d :: ds := by
        rw [← horev, hrev]
      have hd1 := dropWhile_head_false hdd
      have hdmem : d ∈ sanitizeFileName s := by
        rw [← List.mem_reverse, hrev]
        simp
      have hdns : isJsSpace d = false := by
        by_cases hws : isJsSpace d = true
        · have := wsNormed_mem_space hwo hdmem hws
          subst this
          simp at hd1
        · simpa using hws
      exact dropWhile_cons_false hdns
  -- assemble the second pass
  rw [show sanitizeFileName (sanitizeFileName s) = stripTrailingDotSpace (trimWs (collapseWs
    ((sanitizeFileName s).map sanChar))) from rfl]
  rw [map_sanChar_id hochars]
  rw [collapseWs_of_wsNormed hwo]
  rw [trimWs, hfront, hback, List.reverse_reverse]
  rw [stripTrailingDotSpace, horev, dropWhile_idem]
  rw [← horev, List.reverse_reverse]
